import Mathlib

/-!
# Squeekboard renderer and keyboard: geometry, base transform, surface cache, keysym index

A shallow embedding of `eek/eek-renderer.c` (bounds, hit test, button transform,
allocation, label scale, cached surface) and of the keysym index of
`eek/eek-keyboard.c`.

Conventions of the embedding:

* `gdouble` values are elements of a linearly ordered field `K` with a floor
  function, and the operations on them are exact.  The rounding of doubles is made
  explicit in one place, `eek_renderer_set_allocation_size_rounded`, where it
  decides the result.  The definitions are generic in `K`, so they run on `ℚ`; the
  theorems about arbitrary integer angles are stated on `ℝ` with the real sine and
  cosine.
* `gint`, `gboolean` (a `gint`) and `int32_t` values are integers; a `gdouble`
  converted to a 32-bit integer is truncated toward zero when the result fits
  and gives the least 32-bit integer otherwise (see `double_to_int`).
* The C library functions `sin`, `cos` and the GLib constant `G_PI` are not
  part of the repository; they are a parameter `Libm K` of every function that
  uses them.
* A cairo surface is known by the number of surfaces created before it, and what is
  painted is recorded as a list of operations.
-/

namespace Squeekboard

/-- The C library functions and the GLib constant used by the renderer. -/
structure Libm (K : Type) where
  /-- sine of an angle in radians (libm) -/
  sin : K → K
  /-- cosine of an angle in radians (libm) -/
  cos : K → K
  /-- the constant G_PI (GLib) -/
  pi : K

/-- A point, as in eek-types.h: two doubles. -/
structure EekPoint (K : Type) where
  x : K
  y : K
deriving DecidableEq, Repr

/-- A rectangle, as in eek-types.h: top-left corner, width and height. -/
structure EekBounds (K : Type) where
  x : K
  y : K
  width : K
  height : K
deriving DecidableEq, Repr

/-- A row of the layout, reduced to what the renderer reads from it:
squeek_row_get_bounds and squeek_row_get_angle. -/
structure squeek_row (K : Type) where
  bounds : EekBounds K
  angle : ℤ

/-- A button of the layout, reduced to what the geometry reads from it:
squeek_button_get_bounds. -/
structure squeek_button (K : Type) where
  bounds : EekBounds K

/-- The struct button_place: a button together with the row that holds it. -/
structure button_place (K : Type) where
  row : squeek_row K
  button : squeek_button K

section Geometry

variable {K : Type} [LinearOrderedField K]

/-- The expression `angle * G_PI / 180` of the source: an integer angle in
degrees converted to radians. -/
def radians (M : Libm K) (angle : ℤ) : K :=
  (angle : K) * M.pi / 180

/-- Modelled from the spec: eek_point_rotate (defined in eek-types.c, which is
not among the sources).  The spec of get_button_bounds gives it as the standard
rotation about the origin by the angle converted to radians:
x' = x cos t - y sin t, y' = x sin t + y cos t. -/
def eek_point_rotate (M : Libm K) (p : EekPoint K) (angle : ℤ) : EekPoint K :=
  ⟨p.x * M.cos (radians M angle) - p.y * M.sin (radians M angle),
   p.x * M.sin (radians M angle) + p.y * M.cos (radians M angle)⟩

/-- One iteration of the loop of eek_renderer_get_button_bounds: rotate
`points[i]`, then lower `min` and raise `max` coordinate by coordinate. -/
def bounds_loop_step (M : Libm K) (angle : ℤ)
    (acc : EekPoint K × EekPoint K) (p : EekPoint K) : EekPoint K × EekPoint K :=
  let q := eek_point_rotate M p angle
  let mn := acc.1
  let mx := acc.2
  let mn : EekPoint K := if q.x < mn.x then ⟨q.x, mn.y⟩ else mn
  let mx : EekPoint K := if q.x > mx.x then ⟨q.x, mx.y⟩ else mx
  let mn : EekPoint K := if q.y < mn.y then ⟨mn.x, q.y⟩ else mn
  let mx : EekPoint K := if q.y > mx.y then ⟨mx.x, q.y⟩ else mx
  (mn, mx)

/-- The function eek_renderer_get_button_bounds.  `min` and `max` start as the
corners `points[2]` and `points[0]` as they are before the loop rotates them. -/
def eek_renderer_get_button_bounds (M : Libm K) (view_bounds : EekBounds K)
    (place : button_place K) : EekBounds K :=
  let button_bounds := place.button.bounds
  let row_bounds := place.row.bounds
  let p0 : EekPoint K := ⟨button_bounds.x, button_bounds.y⟩
  let p1 : EekPoint K := ⟨p0.x + button_bounds.width, p0.y⟩
  let p2 : EekPoint K := ⟨p1.x, p1.y + button_bounds.height⟩
  let p3 : EekPoint K := ⟨p0.x, p2.y⟩
  let angle := place.row.angle
  let r := [p0, p1, p2, p3].foldl (bounds_loop_step M angle) (p2, p0)
  let mn := r.1
  let mx := r.2
  ⟨view_bounds.x + row_bounds.x + mn.x,
   view_bounds.y + row_bounds.y + mn.y,
   mx.x - mn.x,
   mx.y - mn.y⟩

/-- Conversion of a double to a 32-bit int: truncation toward zero when the truncated
value fits.  When it does not fit C leaves the conversion undefined; the model returns
what the conversion instruction of x86-64 then gives, the least int, -2147483648. -/
def double_to_int [FloorRing K] (c : K) : ℤ :=
  if -2147483649 < c ∧ c < 2147483648 then
    if 0 ≤ c then ⌊c⌋ else ⌈c⌉
  else -2147483648

/-- The helper sign.  Its return type is gboolean, an int, so the cross product
computed in doubles is converted to an integer on return. -/
def sign [FloorRing K] (p1 p2 p3 : EekPoint K) : ℤ :=
  double_to_int ((p1.x - p3.x) * (p2.y - p3.y) - (p2.x - p3.x) * (p1.y - p3.y))

/-- One iteration of the loop of eek_are_bounds_inside: rotate the corner and
translate it by the origin. -/
def inside_loop_step (M : Libm K) (origin : EekPoint K) (angle : ℤ)
    (p : EekPoint K) : EekPoint K :=
  let q := eek_point_rotate M p angle
  ⟨q.x + origin.x, q.y + origin.y⟩

/-- The function eek_are_bounds_inside. -/
def eek_are_bounds_inside [FloorRing K] (M : Libm K) (bounds : EekBounds K)
    (point origin : EekPoint K)
    (angle : ℤ) : ℕ :=
  let p0 : EekPoint K := ⟨bounds.x, bounds.y⟩
  let p1 : EekPoint K := ⟨p0.x + bounds.width, p0.y⟩
  let p2 : EekPoint K := ⟨p1.x, p1.y + bounds.height⟩
  let p3 : EekPoint K := ⟨p0.x, p2.y⟩
  let q0 := inside_loop_step M origin angle p0
  let q1 := inside_loop_step M origin angle p1
  let q2 := inside_loop_step M origin angle p2
  let q3 := inside_loop_step M origin angle p3
  let b1 : Bool := decide (sign point q0 q1 < 0)
  let b2 : Bool := decide (sign point q1 q2 < 0)
  let b3 : Bool := decide (sign point q2 q0 < 0)
  if b1 = b2 ∧ b2 = b3 then 1
  else
    let b1 : Bool := decide (sign point q2 q3 < 0)
    let b2 : Bool := decide (sign point q3 q0 < 0)
    let b3 : Bool := decide (sign point q0 q2 < 0)
    if b1 = b2 ∧ b2 = b3 then 1 else 0

/-! ## The cairo transformation matrix

cairo is an external library.  Of a drawing context `cairo_t` the model keeps the
current transformation matrix (user space to device space), and the three calls
the renderer makes act on it as the cairo documentation describes: each new
transformation takes place before the ones already applied. -/

/-- The type cairo_matrix_t: `x_new = xx * x + xy * y + x0`,
`y_new = yx * x + yy * y + y0`. -/
structure cairo_matrix_t (K : Type) where
  xx : K
  yx : K
  xy : K
  yy : K
  x0 : K
  y0 : K
deriving DecidableEq, Repr

/-- The identity matrix: the transformation of a fresh context, user space = device space. -/
def cairo_matrix_identity : cairo_matrix_t K :=
  ⟨1, 0, 0, 1, 0, 0⟩

/-- cairo_matrix_transform_point. -/
def cairo_matrix_transform_point (m : cairo_matrix_t K) (p : EekPoint K) : EekPoint K :=
  ⟨m.xx * p.x + m.xy * p.y + m.x0, m.yx * p.x + m.yy * p.y + m.y0⟩

/-- cairo_translate: user-space origin moved by (tx, ty). -/
def cairo_translate (cr : cairo_matrix_t K) (tx ty : K) : cairo_matrix_t K :=
  ⟨cr.xx, cr.yx, cr.xy, cr.yy, cr.xx * tx + cr.xy * ty + cr.x0, cr.yx * tx + cr.yy * ty + cr.y0⟩

/-- cairo_scale: user-space axes scaled by sx and sy. -/
def cairo_scale (cr : cairo_matrix_t K) (sx sy : K) : cairo_matrix_t K :=
  ⟨cr.xx * sx, cr.yx * sx, cr.xy * sy, cr.yy * sy, cr.x0, cr.y0⟩

/-- cairo_rotate: user-space axes rotated by an angle in radians, from the positive
x axis toward the positive y axis. -/
def cairo_rotate (M : Libm K) (cr : cairo_matrix_t K) (t : K) : cairo_matrix_t K :=
  ⟨cr.xx * M.cos t + cr.xy * M.sin t, cr.yx * M.cos t + cr.yy * M.sin t,
   cr.xy * M.cos t - cr.xx * M.sin t, cr.yy * M.cos t - cr.yx * M.sin t,
   cr.x0, cr.y0⟩

/-- The keyboard as the renderer reads it: the bounds of its current view,
`squeek_view_get_bounds (level_keyboard_current (keyboard))`. -/
structure LevelKeyboard (K : Type) where
  current_view_bounds : EekBounds K

/-- The struct EekRendererPrivate, without the style, font and pango members.
A cached surface is known by its identity. -/
structure EekRendererPrivate (K : Type) where
  keyboard : LevelKeyboard K
  border_width : K
  allocation_width : K
  allocation_height : K
  scale : K
  scale_factor : ℤ
  origin_x : ℤ
  origin_y : ℤ
  keyboard_surface : Option ℕ

/-- The function eek_renderer_apply_transformation_for_button, as its effect on the
transformation matrix of the context. -/
def eek_renderer_apply_transformation_for_button (M : Libm K) (cr : cairo_matrix_t K)
    (place : button_place K) (scale : K) : cairo_matrix_t K :=
  let bounds := place.button.bounds
  let angle := place.row.angle
  let cr := cairo_scale cr scale scale
  let s := M.sin (radians M angle)
  let cr := if s < 0 then cairo_translate cr 0 (-bounds.width * s)
    else cairo_translate cr (bounds.height * s) 0
  cairo_rotate M cr (radians M angle)

/-- The function eek_renderer_render_button, up to its call of eek_render_button: the
result is the transformation matrix under which the button is painted, or `none`
when the guard `scale >= 0.0` makes the function return early. -/
def eek_renderer_render_button (M : Libm K) (priv : EekRendererPrivate K)
    (cr : cairo_matrix_t K) (place : button_place K) (scale : K) :
    Option (cairo_matrix_t K) :=
  if scale < 0 then none
  else
    let view_bounds := priv.keyboard.current_view_bounds
    let bounds := eek_renderer_get_button_bounds M view_bounds place
    let cr := cairo_translate cr (priv.origin_x : K) (priv.origin_y : K)
    let cr := cairo_scale cr priv.scale priv.scale
    let cr := cairo_translate cr bounds.x bounds.y
    some (eek_renderer_apply_transformation_for_button M cr place scale)

/-! ## Definitions that follow the specification -/

/-- The x coordinate of the point (x, y) rotated, for cosine `c` and sine `s`. -/
def rot_x (c s x y : K) : K := x * c - y * s

/-- The y coordinate of the point (x, y) rotated, for cosine `c` and sine `s`. -/
def rot_y (c s x y : K) : K := x * s + y * c

/-- The box BoundsCalculator is specified to return: the component-wise minimum and
maximum of the four rotated corners, and of nothing else, translated by the view
origin plus the row origin. -/
def rotated_corner_box (M : Libm K) (view_bounds : EekBounds K) (place : button_place K) :
    EekBounds K :=
  let b := place.button.bounds
  let q0 := eek_point_rotate M ⟨b.x, b.y⟩ place.row.angle
  let q1 := eek_point_rotate M ⟨b.x + b.width, b.y⟩ place.row.angle
  let q2 := eek_point_rotate M ⟨b.x + b.width, b.y + b.height⟩ place.row.angle
  let q3 := eek_point_rotate M ⟨b.x, b.y + b.height⟩ place.row.angle
  let min_x := min (min q0.x q1.x) (min q2.x q3.x)
  let max_x := max (max q0.x q1.x) (max q2.x q3.x)
  let min_y := min (min q0.y q1.y) (min q2.y q3.y)
  let max_y := max (max q0.y q1.y) (max q2.y q3.y)
  ⟨view_bounds.x + place.row.bounds.x + min_x, view_bounds.y + place.row.bounds.y + min_y,
   max_x - min_x, max_y - min_y⟩

/-- The real-valued cross product that sign computes before its result is converted
to an integer. -/
def cross_product (p1 p2 p3 : EekPoint K) : K :=
  (p1.x - p3.x) * (p2.y - p3.y) - (p2.x - p3.x) * (p1.y - p3.y)

/-- The point `p` lies in the closed triangle with corners `a`, `b`, `c`: it is a
convex combination of the corners. -/
def in_closed_triangle (p a b c : EekPoint K) : Prop :=
  ∃ u v w : K, 0 ≤ u ∧ 0 ≤ v ∧ 0 ≤ w ∧ u + v + w = 1 ∧
    p.x = u * a.x + v * b.x + w * c.x ∧ p.y = u * a.y + v * b.y + w * c.y

/-- The point lies inside the quadrilateral of HitTester: the corners of `bounds`
rotated by `angle` and translated by `origin`, split into the triangles of corners
0-1-2 and 2-3-0. -/
def in_quadrilateral (M : Libm K) (bounds : EekBounds K) (point origin : EekPoint K)
    (angle : ℤ) : Prop :=
  let q0 := inside_loop_step M origin angle ⟨bounds.x, bounds.y⟩
  let q1 := inside_loop_step M origin angle ⟨bounds.x + bounds.width, bounds.y⟩
  let q2 := inside_loop_step M origin angle ⟨bounds.x + bounds.width, bounds.y + bounds.height⟩
  let q3 := inside_loop_step M origin angle ⟨bounds.x, bounds.y + bounds.height⟩
  in_closed_triangle point q0 q1 q2 ∨ in_closed_triangle point q2 q3 q0

/-- The point lies in the closed axis-aligned rectangle `r`. -/
def in_rect (r : EekBounds K) (p : EekPoint K) : Prop :=
  r.x ≤ p.x ∧ p.x ≤ r.x + r.width ∧ r.y ≤ p.y ∧ p.y ≤ r.y + r.height

/-- The axis-aligned extent of the image of the local rectangle [0,w] x [0,h] under
an affine transformation: the box of the images of its four corners. -/
def rect_image_extent (m : cairo_matrix_t K) (w h : K) : EekBounds K :=
  let q0 := cairo_matrix_transform_point m ⟨0, 0⟩
  let q1 := cairo_matrix_transform_point m ⟨w, 0⟩
  let q2 := cairo_matrix_transform_point m ⟨w, h⟩
  let q3 := cairo_matrix_transform_point m ⟨0, h⟩
  let min_x := min (min q0.x q1.x) (min q2.x q3.x)
  let max_x := max (max q0.x q1.x) (max q2.x q3.x)
  let min_y := min (min q0.y q1.y) (min q2.y q3.y)
  let max_y := max (max q0.y q1.y) (max q2.y q3.y)
  ⟨min_x, min_y, max_x - min_x, max_y - min_y⟩

end Geometry

/-! ## The renderer state: allocation, label scale and the cached surface -/

section Renderer

variable {K : Type} [LinearOrderedField K]

/-- The GLib macro MIN: `(((a) < (b)) ? (a) : (b))`. -/
def MIN (a b : K) : K :=
  if a < b then a else b

/-- The C library function floor: the largest integral value not above `x`, returned
as a double. -/
def libm_floor [FloorRing K] (x : K) : K :=
  ((⌊x⌋ : ℤ) : K)

/-- The static function invalidate.  cairo_surface_destroy releases the cached surface;
the model forgets its identity. -/
def invalidate (priv : EekRendererPrivate K) : EekRendererPrivate K :=
  if priv.keyboard_surface.isSome then
    ⟨priv.keyboard, priv.border_width, priv.allocation_width, priv.allocation_height,
     priv.scale, priv.scale_factor, priv.origin_x, priv.origin_y, none⟩
  else priv

/-- The renderer that eek_renderer_new returns for a keyboard: the members as
eek_renderer_init sets them, the origin as GObject zeroes it. -/
def eek_renderer_new (keyboard : LevelKeyboard K) : EekRendererPrivate K :=
  ⟨keyboard, 1, 0, 0, 1, 1, 0, 0, none⟩

/-- The expression `MIN (width / w, height / h)` of eek_renderer_set_allocation_size, for
a width and a height greater than 0.  A double greater than 0 divided by zero is +inf,
which `K` does not hold, and MIN then gives the other quotient (a zero extent is taken
as +0; `K` has no negative zero).  When `w` and `h` are both zero the source's scale is
+inf itself: there the model does not follow the source. -/
def allocation_scale (width height w h : K) : K :=
  if w = 0 then height / h
  else if h = 0 then width / w
  else MIN (width / w) (height / h)

/-- The function eek_renderer_set_allocation_size.  The guard
`g_return_if_fail (width > 0.0 && height > 0.0)` returns before anything is written. -/
def eek_renderer_set_allocation_size [FloorRing K] (priv : EekRendererPrivate K)
    (width height : K) : EekRendererPrivate K :=
  if ¬ (width > 0 ∧ height > 0) then priv
  else
    let bounds := priv.keyboard.current_view_bounds
    let w := bounds.x * 2 + bounds.width
    let h := bounds.y * 2 + bounds.height
    let scale := allocation_scale width height w h
    invalidate
      ⟨priv.keyboard, priv.border_width, width, height, scale, priv.scale_factor,
       double_to_int (libm_floor ((width - scale * w) / 2)),
       double_to_int (libm_floor ((height - scale * h) / 2)),
       priv.keyboard_surface⟩

/-- The expression `MIN (width / w, height / h)` with the rounding of the two divisions
made explicit: `rnd` rounds the exact result of an operation to a double. -/
def allocation_scale_rounded (rnd : K → K) (width height w h : K) : K :=
  if w = 0 then rnd (height / h)
  else if h = 0 then rnd (width / w)
  else MIN (rnd (width / w)) (rnd (height / h))

/-- The function eek_renderer_set_allocation_size with the rounding of every operation on
doubles made explicit: `rnd` rounds the exact result of an operation to a double.  With
the identity for `rnd` this is eek_renderer_set_allocation_size above. -/
def eek_renderer_set_allocation_size_rounded [FloorRing K] (rnd : K → K)
    (priv : EekRendererPrivate K) (width height : K) : EekRendererPrivate K :=
  if ¬ (width > 0 ∧ height > 0) then priv
  else
    let bounds := priv.keyboard.current_view_bounds
    let w := rnd (rnd (bounds.x * 2) + bounds.width)
    let h := rnd (rnd (bounds.y * 2) + bounds.height)
    let scale := allocation_scale_rounded rnd width height w h
    invalidate
      ⟨priv.keyboard, priv.border_width, width, height, scale, priv.scale_factor,
       double_to_int (libm_floor (rnd (rnd (width - rnd (scale * w)) / 2))),
       double_to_int (libm_floor (rnd (rnd (height - rnd (scale * h)) / 2))),
       priv.keyboard_surface⟩

/-- The function eek_renderer_set_scale_factor: it stores the factor and nothing else. -/
def eek_renderer_set_scale_factor (priv : EekRendererPrivate K) (scale : ℤ) :
    EekRendererPrivate K :=
  ⟨priv.keyboard, priv.border_width, priv.allocation_width, priv.allocation_height,
   priv.scale, scale, priv.origin_x, priv.origin_y, priv.keyboard_surface⟩

/-- The local variable `scale` of eek_renderer_render_button_label, the factor applied
to the font size: `none` when the button has no label and the function returns before
computing it.  `label` is what squeek_button_get_label returns. -/
def eek_renderer_render_button_label_scale (priv : EekRendererPrivate K)
    (label : Option String) (button : squeek_button K) : Option K :=
  match label with
  | none => none
  | some _ =>
    let bounds := button.bounds
    some (MIN ((bounds.width - priv.border_width) / bounds.width)
      ((bounds.height - priv.border_width) / bounds.height))

/-- The arguments of the cairo_translate call of
eek_renderer_apply_transformation_for_button, the one between cairo_scale and
cairo_rotate: `(0, - bounds.width * s)` when `s < 0` and `(bounds.height * s, 0)`
otherwise, with `s = sin (angle * G_PI / 180)`. -/
def button_pivot_offset (M : Libm K) (place : button_place K) : K × K :=
  let bounds := place.button.bounds
  let angle := place.row.angle
  let s := M.sin (radians M angle)
  if s < 0 then (0, -bounds.width * s) else (bounds.height * s, 0)

/-! ### Painting the keyboard

The view and its rows and buttons come from the layout, which is not part of these
sources.  What is painted is recorded as a list of operations; the transformations and
clips under which a button is painted are not recorded.  A surface is known by the
number cairo gave it: the count of the surfaces created before it. -/

/-- A view of the layout: its bounds and its rows, each with its buttons in order
(squeek_view_get_bounds, squeek_view_foreach, squeek_row_foreach). -/
structure squeek_view (K : Type) where
  bounds : EekBounds K
  rows : List (squeek_row K × List (squeek_button K))

/-- What the renderer paints. -/
inductive PaintOp (K : Type) where
  /-- cairo_surface_create_for_rectangle: a new surface of the given size -/
  | surface_create (surface : ℕ) (width height : K)
  /-- gtk_render_background and gtk_render_frame of the view over the whole surface -/
  | view_background (surface : ℕ) (width height : K)
  /-- eek_render_button onto a surface -/
  | button_on_surface (surface : ℕ) (row : squeek_row K) (button : squeek_button K)
      (pressed locked : Bool)
  /-- cairo_set_source_surface and cairo_paint: the surface copied to the widget -/
  | paint_surface (surface : ℕ)
  /-- A button painted straight onto the widget by squeek_layout_draw_all_changed -/
  | changed_button (place : button_place K) (pressed locked : Bool)

/-- The renderer together with what cairo has done so far. -/
structure RenderEnv (K : Type) where
  priv : EekRendererPrivate K
  surfaces_created : ℕ
  ops : List (PaintOp K)

/-- The callback create_keyboard_surface_button_callback: the button painted released and
unlocked. -/
def create_keyboard_surface_button_callback (surface : ℕ) (row : squeek_row K)
    (button : squeek_button K) : PaintOp K :=
  PaintOp.button_on_surface surface row button false false

/-- The callback create_keyboard_surface_row_callback: every button of the row. -/
def create_keyboard_surface_row_callback (surface : ℕ)
    (row : squeek_row K × List (squeek_button K)) : List (PaintOp K) :=
  row.2.map (create_keyboard_surface_button_callback surface row.1)

/-- The static function render_keyboard_surface: the background of the view, then every
button of every row, onto the surface the renderer holds.  Without a surface
cairo_create gives an inert context and nothing is painted. -/
def render_keyboard_surface (priv : EekRendererPrivate K) (view : squeek_view K) :
    List (PaintOp K) :=
  match priv.keyboard_surface with
  | none => []
  | some surface =>
    PaintOp.view_background surface priv.allocation_width priv.allocation_height ::
      (view.rows.map (create_keyboard_surface_row_callback surface)).flatten

/-- The function eek_renderer_render_keyboard.  `view` is what
squeek_layout_get_current_view returns and `changed` the buttons that
squeek_layout_draw_all_changed paints (both from the layout).  The keyboard pointer
is not NULL in the model. -/
def eek_renderer_render_keyboard (env : RenderEnv K) (view : squeek_view K)
    (changed : List (button_place K × Bool × Bool)) : RenderEnv K :=
  if ¬ (env.priv.allocation_width > 0) then env
  else if ¬ (env.priv.allocation_height > 0) then env
  else
    let surface := env.surfaces_created
    let priv : EekRendererPrivate K :=
      ⟨env.priv.keyboard, env.priv.border_width, env.priv.allocation_width,
       env.priv.allocation_height, env.priv.scale, env.priv.scale_factor,
       env.priv.origin_x, env.priv.origin_y, some surface⟩
    ⟨priv, env.surfaces_created + 1,
     env.ops ++
       (PaintOp.surface_create surface priv.allocation_width priv.allocation_height ::
         render_keyboard_surface priv view) ++
       (PaintOp.paint_surface surface ::
         changed.map (fun c => PaintOp.changed_button c.1 c.2.1 c.2.2))⟩

end Renderer

/-! ## The keyboard of eek-keyboard.c -/

section Keyboard

variable {Key : Type}

/-- An EekSection as the keyboard sees it: a container of keys, and the signals of it
that have a handler connected. -/
structure EekSection (Key : Type) where
  children : List Key
  connected : List String

/-- The struct _EekKeyboardPrivate; the layout is known by its identity. -/
structure EekKeyboardPrivate where
  group : ℤ
  level : ℤ
  layout : Option ℕ
  is_realized : Bool

/-- An EekKeyboard: its private part and, as an EekContainer, its sections. -/
structure EekKeyboard (Key : Type) where
  priv : EekKeyboardPrivate
  children : List (EekSection Key)

/-- The struct keysym_index. -/
structure keysym_index where
  group : ℤ
  level : ℤ

/-- Modelled from the spec: eek_container_foreach_child (eek-container.c, which is not
among the sources).  A container owns an ordered sequence of children; the callback is
called on every child, in order, and updates it in place. -/
def eek_container_foreach_child {α : Type} (children : List α) (callback : α → α) : List α :=
  children.map callback

/-- The callback set_keysym_index_for_key.  `key_set` is eek_key_set_keysym_index
(eek-key.c, not among the sources). -/
def set_keysym_index_for_key (key_set : Key → ℤ → ℤ → Key) (ki : keysym_index)
    (element : Key) : Key :=
  key_set element ki.group ki.level

/-- The callback set_keysym_index_for_section. -/
def set_keysym_index_for_section (key_set : Key → ℤ → ℤ → Key) (ki : keysym_index)
    (element : EekSection Key) : EekSection Key :=
  ⟨eek_container_foreach_child element.children (set_keysym_index_for_key key_set ki),
   element.connected⟩

/-- The function eek_keyboard_real_set_keysym_index. -/
def eek_keyboard_real_set_keysym_index (key_set : Key → ℤ → ℤ → Key)
    (self : EekKeyboard Key) (group level : ℤ) : EekKeyboard Key :=
  let priv : EekKeyboardPrivate := ⟨group, level, self.priv.layout, self.priv.is_realized⟩
  let ki : keysym_index := ⟨group, level⟩
  ⟨priv, eek_container_foreach_child self.children (set_keysym_index_for_section key_set ki)⟩

/-- The function eek_keyboard_real_get_keysym_index.  An output pointer is `none` when
it is NULL and otherwise holds the value stored where it points; the result is what
the two pointers hold after the call. -/
def eek_keyboard_real_get_keysym_index (self : EekKeyboard Key) (group level : Option ℤ) :
    Option ℤ × Option ℤ :=
  if ¬ (group.isSome ∨ level.isSome) then (group, level)
  else
    (if group.isSome then some self.priv.group else group,
     if level.isSome then some self.priv.level else level)

/-- The function eek_keyboard_set_keysym_index: the method of the class, which for an
EekKeyboard is eek_keyboard_real_set_keysym_index. -/
def eek_keyboard_set_keysym_index (key_set : Key → ℤ → ℤ → Key)
    (keyboard : EekKeyboard Key) (group level : ℤ) : EekKeyboard Key :=
  eek_keyboard_real_set_keysym_index key_set keyboard group level

/-- The function eek_keyboard_get_keysym_index. -/
def eek_keyboard_get_keysym_index (keyboard : EekKeyboard Key) (group level : Option ℤ) :
    Option ℤ × Option ℤ :=
  eek_keyboard_real_get_keysym_index keyboard group level

end Keyboard

/-! ## Definitions that follow the specification: triggers and the pivot offset -/

section RendererSpec

variable {K : Type} [LinearOrderedField K]

/-- The calls the specification lists as invalidating the cached surface. -/
inductive InvalidationTrigger (K : Type) where
  | allocation_size (width height : K)
  | scale_factor (scale : ℤ)
  | explicit_invalidate

/-- The renderer after an invalidation trigger. -/
def InvalidationTrigger.apply [FloorRing K] (t : InvalidationTrigger K)
    (priv : EekRendererPrivate K) : EekRendererPrivate K :=
  match t with
  | InvalidationTrigger.allocation_size width height =>
    eek_renderer_set_allocation_size priv width height
  | InvalidationTrigger.scale_factor scale => eek_renderer_set_scale_factor priv scale
  | InvalidationTrigger.explicit_invalidate => invalidate priv

/-- Whether the call is one the specification counts as a trigger: a new allocation
counts with a valid size only. -/
def InvalidationTrigger.valid (t : InvalidationTrigger K) : Prop :=
  match t with
  | InvalidationTrigger.allocation_size width height => 0 < width ∧ 0 < height
  | InvalidationTrigger.scale_factor _ => True
  | InvalidationTrigger.explicit_invalidate => True

/-- What holds of a renderer at any time: a surface it caches is one that cairo has
created, and it was painted under a valid allocation. -/
def renderer_invariant (env : RenderEnv K) : Prop :=
  ∀ surface, env.priv.keyboard_surface = some surface →
    surface < env.surfaces_created ∧ 0 < env.priv.allocation_width ∧
      0 < env.priv.allocation_height

/-- The two-tier repaint as the specification describes it for a renderer that holds a
cached surface: the call keeps that surface, creates no surface, and paints nothing but
the copy of the cached surface followed by the changed buttons. -/
def reuses_cached_surface (env : RenderEnv K) (view : squeek_view K)
    (changed : List (button_place K × Bool × Bool)) : Prop :=
  ∀ surface, env.priv.keyboard_surface = some surface →
    (eek_renderer_render_keyboard env view changed).priv.keyboard_surface = some surface ∧
    (eek_renderer_render_keyboard env view changed).surfaces_created = env.surfaces_created ∧
    (eek_renderer_render_keyboard env view changed).ops =
      env.ops ++ (PaintOp.paint_surface surface ::
        changed.map (fun c => PaintOp.changed_button c.1 c.2.1 c.2.2))

/-- The pivot offset as the specification words it: horizontal, of width times the
absolute value of the sine, when the sine is negative, and vertical, of height times the
sine, otherwise. -/
def spec_pivot_offset (M : Libm K) (place : button_place K) : K × K :=
  let s := M.sin (radians M place.row.angle)
  if s < 0 then (place.button.bounds.width * |s|, 0) else (0, place.button.bounds.height * s)

end RendererSpec

/-! ## Rounding to a double -/

/-- Rounding of a rational number to the nearest binary64 number, ties to even: with
2 ^ e <= |q| < 2 ^ (e + 1) the result is the multiple of 2 ^ (e - 52) nearest to q.  The
limits of the exponent of the format (overflow, subnormal numbers) are not modelled. -/
def binary64_round (q : ℚ) : ℚ :=
  if q = 0 then 0
  else
    let e : ℤ := Int.log 2 |q|
    let ulp : ℚ := 2 ^ (e - 52)
    let n : ℚ := q / ulp
    let f : ℤ := ⌊n⌋
    let r : ℚ := n - f
    let m : ℤ :=
      if r < 1 / 2 then f
      else if 1 / 2 < r then f + 1
      else if f % 2 = 0 then f else f + 1
    (m : ℚ) * ulp

/-! ## Sample data -/

/-- A renderer for a view of bounds {0, 0, 800, 300}, allocated 800 x 300, that holds
the cached surface number 0. -/
def sample_priv : EekRendererPrivate ℚ :=
  ⟨⟨⟨0, 0, 800, 300⟩⟩, 1, 800, 300, 1, 1, 0, 0, some 0⟩

/-- The sample renderer after one surface has been created and nothing else recorded. -/
def sample_env : RenderEnv ℚ :=
  ⟨sample_priv, 1, []⟩

/-- A view with one row of two buttons. -/
def sample_view : squeek_view ℚ :=
  ⟨⟨0, 0, 800, 300⟩, [(⟨⟨0, 0, 800, 100⟩, 0⟩, [⟨⟨10, 10, 60, 60⟩⟩, ⟨⟨80, 10, 60, 60⟩⟩])]⟩

/-! ## Auxiliary lemmas: the bounds loop -/

section BoundsLemmas

variable {K : Type} [LinearOrderedField K]

/-- One iteration of the bounds loop takes coordinate-wise minima and maxima. -/
theorem bounds_loop_step_eq (M : Libm K) (angle : ℤ) (mn mx p : EekPoint K) :
    bounds_loop_step M angle (mn, mx) p =
      (⟨min (eek_point_rotate M p angle).x mn.x, min (eek_point_rotate M p angle).y mn.y⟩,
       ⟨max (eek_point_rotate M p angle).x mx.x, max (eek_point_rotate M p angle).y mx.y⟩) := by
  unfold bounds_loop_step
  simp only []
  have h1 : ∀ a b : K, (if a < b then a else b) = min a b := by
    intro a b; rw [min_def]; split_ifs <;> first | rfl | (exfalso; linarith) | linarith
  have h2 : ∀ a b : K, (if a > b then a else b) = max a b := by
    intro a b; rw [max_def]; split_ifs <;> first | rfl | (exfalso; linarith)
  refine Prod.ext ?_ ?_
  · rw [← h1, ← h1]; split_ifs <;> rfl
  · rw [← h2, ← h2]; split_ifs <;> rfl

/-- Closed form of eek_renderer_get_button_bounds: the minima run over the four rotated
corners and the unrotated corner `points[2]`, the maxima over the four rotated corners
and the unrotated corner `points[0]`. -/
theorem get_button_bounds_eq (M : Libm K) (view : EekBounds K) (place : button_place K) :
    eek_renderer_get_button_bounds M view place =
      (let c := M.cos (radians M place.row.angle)
       let s := M.sin (radians M place.row.angle)
       let b := place.button.bounds
       let x0 := b.x
       let y0 := b.y
       let x1 := b.x + b.width
       let y1 := b.y + b.height
       let mnx := min (rot_x c s x0 y1) (min (rot_x c s x1 y1) (min (rot_x c s x1 y0)
                    (min (rot_x c s x0 y0) x1)))
       let mny := min (rot_y c s x0 y1) (min (rot_y c s x1 y1) (min (rot_y c s x1 y0)
                    (min (rot_y c s x0 y0) y1)))
       let mxx := max (rot_x c s x0 y1) (max (rot_x c s x1 y1) (max (rot_x c s x1 y0)
                    (max (rot_x c s x0 y0) x0)))
       let mxy := max (rot_y c s x0 y1) (max (rot_y c s x1 y1) (max (rot_y c s x1 y0)
                    (max (rot_y c s x0 y0) y0)))
       ⟨view.x + place.row.bounds.x + mnx, view.y + place.row.bounds.y + mny,
        mxx - mnx, mxy - mny⟩) := by
  simp only [eek_renderer_get_button_bounds, List.foldl, bounds_loop_step_eq, eek_point_rotate,
    rot_x, rot_y]

theorem le_max5 (a b c d e : K) :
    a ≤ max a (max b (max c (max d e))) ∧ b ≤ max a (max b (max c (max d e))) ∧
    c ≤ max a (max b (max c (max d e))) ∧ d ≤ max a (max b (max c (max d e))) ∧
    e ≤ max a (max b (max c (max d e))) := by
  refine ⟨?_, ?_, ?_, ?_, ?_⟩ <;> simp [le_max_iff]

theorem min5_le (a b c d e : K) :
    min a (min b (min c (min d e))) ≤ a ∧ min a (min b (min c (min d e))) ≤ b ∧
    min a (min b (min c (min d e))) ≤ c ∧ min a (min b (min c (min d e))) ≤ d ∧
    min a (min b (min c (min d e))) ≤ e := by
  refine ⟨?_, ?_, ?_, ?_, ?_⟩ <;> simp [min_le_iff]

/-- The returned box is at least as wide and as high as the rotated button. -/
theorem button_bounds_size_ge (M : Libm K) (view : EekBounds K) (place : button_place K) :
    place.button.bounds.width * |M.cos (radians M place.row.angle)| +
        place.button.bounds.height * |M.sin (radians M place.row.angle)| ≤
      (eek_renderer_get_button_bounds M view place).width ∧
    place.button.bounds.width * |M.sin (radians M place.row.angle)| +
        place.button.bounds.height * |M.cos (radians M place.row.angle)| ≤
      (eek_renderer_get_button_bounds M view place).height := by
  rw [get_button_bounds_eq]
  simp only [rot_x, rot_y]
  generalize M.cos (radians M place.row.angle) = c
  generalize M.sin (radians M place.row.angle) = s
  generalize place.button.bounds.width = w
  generalize place.button.bounds.height = h
  generalize place.button.bounds.x = bx
  generalize place.button.bounds.y = y
  constructor
  · obtain ⟨a1, a2, a3, a4, -⟩ := le_max5 (bx * c - (y + h) * s) ((bx + w) * c - (y + h) * s)
      ((bx + w) * c - y * s) (bx * c - y * s) bx
    obtain ⟨b1, b2, b3, b4, -⟩ := min5_le (bx * c - (y + h) * s) ((bx + w) * c - (y + h) * s)
      ((bx + w) * c - y * s) (bx * c - y * s) (bx + w)
    rcases abs_cases c with ⟨hc, -⟩ | ⟨hc, -⟩ <;> rcases abs_cases s with ⟨hs, -⟩ | ⟨hs, -⟩ <;>
      rw [hc, hs] <;> linarith
  · obtain ⟨a1, a2, a3, a4, -⟩ := le_max5 (bx * s + (y + h) * c) ((bx + w) * s + (y + h) * c)
      ((bx + w) * s + y * c) (bx * s + y * c) y
    obtain ⟨b1, b2, b3, b4, -⟩ := min5_le (bx * s + (y + h) * c) ((bx + w) * s + (y + h) * c)
      ((bx + w) * s + y * c) (bx * s + y * c) (y + h)
    rcases abs_cases c with ⟨hc, -⟩ | ⟨hc, -⟩ <;> rcases abs_cases s with ⟨hs, -⟩ | ⟨hs, -⟩ <;>
      rw [hc, hs] <;> linarith

/-- For a rotation that is not a multiple of a quarter turn (cosine and sine both
non-zero, on the unit circle) the area of the returned box exceeds that of the button. -/
theorem button_bounds_area_of_unit_circle (M : Libm K) (view : EekBounds K)
    (place : button_place K)
    (hw : 0 < place.button.bounds.width) (hh : 0 < place.button.bounds.height)
    (hc : M.cos (radians M place.row.angle) ≠ 0) (hs : M.sin (radians M place.row.angle) ≠ 0)
    (hcs : M.cos (radians M place.row.angle) ^ 2 + M.sin (radians M place.row.angle) ^ 2 = 1) :
    place.button.bounds.width * place.button.bounds.height <
      (eek_renderer_get_button_bounds M view place).width *
        (eek_renderer_get_button_bounds M view place).height := by
  obtain ⟨hW, hH⟩ := button_bounds_size_ge M view place
  revert hW hH
  generalize (eek_renderer_get_button_bounds M view place).width = W
  generalize (eek_renderer_get_button_bounds M view place).height = H
  generalize M.cos (radians M place.row.angle) = c at *
  generalize M.sin (radians M place.row.angle) = s at *
  generalize place.button.bounds.width = w at *
  generalize place.button.bounds.height = h at *
  intro hW hH
  have ha : 0 < |c| := abs_pos.mpr hc
  have hb : 0 < |s| := abs_pos.mpr hs
  have hab : |c| ^ 2 + |s| ^ 2 = 1 := by rw [sq_abs, sq_abs]; exact hcs
  have h1 : 0 < w * |c| + h * |s| := by positivity
  have h2 : 0 < w * |s| + h * |c| := by positivity
  have h3 : (w * |c| + h * |s|) * (w * |s| + h * |c|) ≤ W * H :=
    mul_le_mul hW hH h2.le (h1.le.trans hW)
  have h4 : (w * |c| + h * |s|) * (w * |s| + h * |c|) =
      w * h * (|c| ^ 2 + |s| ^ 2) + (w ^ 2 + h ^ 2) * (|c| * |s|) := by ring
  have h5 : 0 < (w ^ 2 + h ^ 2) * (|c| * |s|) := by positivity
  rw [h4, hab] at h3
  linarith

/-- For a button at the origin of its row (bx = by = 0) with width and height at least 0
the unrotated start values of `min` and `max` do not show: the returned box is the box of
the four rotated corners. -/
theorem button_bounds_at_row_origin (M : Libm K) (view : EekBounds K) (row : squeek_row K)
    (w h : K) (hw : 0 ≤ w) (hh : 0 ≤ h) :
    eek_renderer_get_button_bounds M view ⟨row, ⟨⟨0, 0, w, h⟩⟩⟩ =
      rotated_corner_box M view ⟨row, ⟨⟨0, 0, w, h⟩⟩⟩ := by
  rw [get_button_bounds_eq]
  simp only [rotated_corner_box, eek_point_rotate, rot_x, rot_y, zero_mul, zero_add, sub_zero,
    add_zero, zero_sub, max_self, min_eq_left hw, min_eq_left hh]
  generalize M.cos (radians M row.angle) = c
  generalize M.sin (radians M row.angle) = s
  have e1 : min (-(h * s)) (min (w * c - h * s) (min (w * c) 0)) =
      min (min 0 (w * c)) (min (w * c - h * s) (-(h * s))) := by
    simp only [min_assoc, min_comm, min_left_comm]
  have e2 : max (-(h * s)) (max (w * c - h * s) (max (w * c) 0)) =
      max (max 0 (w * c)) (max (w * c - h * s) (-(h * s))) := by
    simp only [max_assoc, max_comm, max_left_comm]
  have e3 : min (h * c) (min (w * s + h * c) (min (w * s) 0)) =
      min (min 0 (w * s)) (min (w * s + h * c) (h * c)) := by
    simp only [min_assoc, min_comm, min_left_comm]
  have e4 : max (h * c) (max (w * s + h * c) (max (w * s) 0)) =
      max (max 0 (w * s)) (max (w * s + h * c) (h * c)) := by
    simp only [max_assoc, max_comm, max_left_comm]
  rw [e1, e2, e3, e4]

end BoundsLemmas

/-! ## Auxiliary lemmas: the real sine and cosine -/

theorem radians_real (a : ℤ) :
    radians (⟨Real.sin, Real.cos, Real.pi⟩ : Libm ℝ) a = (a : ℝ) * Real.pi / 180 := rfl

theorem radians_real_0 : radians (⟨Real.sin, Real.cos, Real.pi⟩ : Libm ℝ) 0 = 0 := by
  rw [radians_real]; simp

theorem radians_real_90 : radians (⟨Real.sin, Real.cos, Real.pi⟩ : Libm ℝ) 90 = Real.pi / 2 := by
  rw [radians_real]; push_cast; ring

theorem radians_real_neg_90 :
    radians (⟨Real.sin, Real.cos, Real.pi⟩ : Libm ℝ) (-90) = -(Real.pi / 2) := by
  rw [radians_real]; push_cast; ring

theorem radians_real_180 : radians (⟨Real.sin, Real.cos, Real.pi⟩ : Libm ℝ) 180 = Real.pi := by
  rw [radians_real]; push_cast; ring

/-- At an integer number of degrees that is not a multiple of 90 neither the cosine nor
the sine vanishes. -/
theorem real_trig_ne_zero (angle : ℤ) (h : ¬ (90 : ℤ) ∣ angle) :
    Real.cos ((angle : ℝ) * Real.pi / 180) ≠ 0 ∧ Real.sin ((angle : ℝ) * Real.pi / 180) ≠ 0 := by
  have hpi : Real.pi ≠ 0 := Real.pi_ne_zero
  constructor
  · intro h0
    rw [Real.cos_eq_zero_iff] at h0
    obtain ⟨k, hk⟩ := h0
    apply h
    refine ⟨2 * k + 1, ?_⟩
    have : (angle : ℝ) = 90 * (2 * (k : ℝ) + 1) := by
      have h2 : (angle : ℝ) * Real.pi = 90 * (2 * (k : ℝ) + 1) * Real.pi := by linarith
      exact mul_right_cancel₀ hpi h2
    exact_mod_cast this
  · intro h0
    rw [Real.sin_eq_zero_iff] at h0
    obtain ⟨n, hn⟩ := h0
    apply h
    refine ⟨2 * n, ?_⟩
    have : (angle : ℝ) = 90 * (2 * (n : ℝ)) := by
      have h2 : (angle : ℝ) * Real.pi = 90 * (2 * (n : ℝ)) * Real.pi := by linarith
      exact mul_right_cancel₀ hpi h2
    exact_mod_cast this

/-! ## Auxiliary lemmas: the hit test -/

section HitLemmas

variable {K : Type} [LinearOrderedField K]

/-- Within the int range the conversion is the truncation toward zero. -/
theorem double_to_int_of_in_range [FloorRing K] (c : K) (hlo : -2147483649 < c)
    (hhi : c < 2147483648) : double_to_int c = if 0 ≤ c then ⌊c⌋ else ⌈c⌉ := by
  unfold double_to_int
  rw [if_pos ⟨hlo, hhi⟩]

/-- The converted value is negative exactly when the real value is at most -1 or too
large for an int. -/
theorem double_to_int_neg_iff [FloorRing K] (c : K) :
    double_to_int c < 0 ↔ c ≤ -1 ∨ 2147483648 ≤ c := by
  unfold double_to_int
  split_ifs with hr h
  · constructor
    · intro h1
      have := Int.floor_nonneg.mpr h
      omega
    · rintro (h1 | h1) <;> linarith [hr.2]
  · have e : ⌈c⌉ < 0 ↔ ⌈c⌉ ≤ -1 := by omega
    rw [e, Int.ceil_le]
    constructor
    · intro h1
      left
      simpa using h1
    · rintro (h1 | h1)
      · simpa using h1
      · linarith
  · constructor
    · intro _
      by_cases h1 : c ≤ -1
      · exact Or.inl h1
      · right
        by_contra h2
        exact hr ⟨by linarith, not_le.mp h2⟩
    · intro _
      norm_num

theorem sign_neg_iff [FloorRing K] (p1 p2 p3 : EekPoint K) :
    sign p1 p2 p3 < 0 ↔
      cross_product p1 p2 p3 ≤ -1 ∨ 2147483648 ≤ cross_product p1 p2 p3 := by
  unfold sign cross_product
  exact double_to_int_neg_iff _

/-- The cross product is unchanged when its three points are rotated and translated
together. -/
theorem cross_product_inside_loop_step (M : Libm K) (origin : EekPoint K) (angle : ℤ)
    (hcs : M.cos (radians M angle) ^ 2 + M.sin (radians M angle) ^ 2 = 1)
    (p a b : EekPoint K) :
    cross_product (inside_loop_step M origin angle p) (inside_loop_step M origin angle a)
      (inside_loop_step M origin angle b) = cross_product p a b := by
  have h : cross_product (inside_loop_step M origin angle p) (inside_loop_step M origin angle a)
      (inside_loop_step M origin angle b) =
      (M.cos (radians M angle) ^ 2 + M.sin (radians M angle) ^ 2) * cross_product p a b := by
    simp only [cross_product, inside_loop_step, eek_point_rotate]
    ring
  rw [h, hcs, one_mul]

/-- The rotated and translated centre of the button is a hit, for any rotation on the
unit circle, when the cross products w h / 2 of the centre fit an int. -/
theorem hit_centre_of_unit_circle [FloorRing K] (M : Libm K) (bounds : EekBounds K)
    (origin : EekPoint K) (angle : ℤ)
    (hcs : M.cos (radians M angle) ^ 2 + M.sin (radians M angle) ^ 2 = 1)
    (hw : 0 ≤ bounds.width) (hh : 0 ≤ bounds.height)
    (hfit : bounds.width * bounds.height < 4294967296) :
    eek_are_bounds_inside M bounds
      (inside_loop_step M origin angle ⟨bounds.x + bounds.width / 2, bounds.y + bounds.height / 2⟩)
      origin angle = 1 := by
  have hwh : 0 ≤ bounds.width * bounds.height := mul_nonneg hw hh
  unfold eek_are_bounds_inside
  simp only [sign_neg_iff, cross_product_inside_loop_step M origin angle hcs]
  rw [if_pos]
  have e1 : cross_product
      (⟨bounds.x + bounds.width / 2, bounds.y + bounds.height / 2⟩ : EekPoint K)
      ⟨bounds.x, bounds.y⟩ ⟨bounds.x + bounds.width, bounds.y⟩ =
        bounds.width * bounds.height / 2 := by
    simp only [cross_product]; ring
  have e2 : cross_product
      (⟨bounds.x + bounds.width / 2, bounds.y + bounds.height / 2⟩ : EekPoint K)
      ⟨bounds.x + bounds.width, bounds.y⟩ ⟨bounds.x + bounds.width, bounds.y + bounds.height⟩ =
        bounds.width * bounds.height / 2 := by
    simp only [cross_product]; ring
  have e3 : cross_product
      (⟨bounds.x + bounds.width / 2, bounds.y + bounds.height / 2⟩ : EekPoint K)
      ⟨bounds.x + bounds.width, bounds.y + bounds.height⟩ ⟨bounds.x, bounds.y⟩ = 0 := by
    simp only [cross_product]; ring
  have h1 : ¬ (bounds.width * bounds.height / 2 ≤ -1 ∨
      2147483648 ≤ bounds.width * bounds.height / 2) := by
    rintro (h | h) <;> linarith
  have h3 : ¬ ((0 : K) ≤ -1 ∨ (2147483648 : K) ≤ 0) := by norm_num
  rw [e1, e2, e3]
  simp [h1, h3]

end HitLemmas

/-! ## Auxiliary lemmas: the button transform -/

section TransformLemmas

variable {K : Type} [LinearOrderedField K]

theorem add_min4 (t a b c d : K) :
    t + min (min a b) (min c d) = min (min (t + a) (t + b)) (min (t + c) (t + d)) := by
  rw [min_add_add_left, min_add_add_left, min_add_add_left]

theorem add_max4 (t a b c d : K) :
    t + max (max a b) (max c d) = max (max (t + a) (t + b)) (max (t + c) (t + d)) := by
  rw [max_add_add_left, max_add_add_left, max_add_add_left]

/-- The extent of the local rectangle under a rotation followed by a translation. -/
theorem rect_image_extent_rotation (c s tx ty w h : K) :
    rect_image_extent (⟨c, s, -s, c, tx, ty⟩ : cairo_matrix_t K) w h =
      ⟨tx + min (min 0 (w * c)) (min (w * c - h * s) (-(h * s))),
       ty + min (min 0 (w * s)) (min (w * s + h * c) (h * c)),
       max (max 0 (w * c)) (max (w * c - h * s) (-(h * s))) -
         min (min 0 (w * c)) (min (w * c - h * s) (-(h * s))),
       max (max 0 (w * s)) (max (w * s + h * c) (h * c)) -
         min (min 0 (w * s)) (min (w * s + h * c) (h * c))⟩ := by
  have hx : ∀ a b c' d : K, tx + max (max a b) (max c' d) - (tx + min (min a b) (min c' d)) =
      max (max a b) (max c' d) - min (min a b) (min c' d) := by intros; ring
  have hy : ∀ a b c' d : K, ty + max (max a b) (max c' d) - (ty + min (min a b) (min c' d)) =
      max (max a b) (max c' d) - min (min a b) (min c' d) := by intros; ring
  rw [← hx, ← hy]
  simp only [add_min4, add_max4, rect_image_extent, cairo_matrix_transform_point]
  have x0 : c * 0 + -s * 0 + tx = tx + 0 := by ring
  have x1 : c * w + -s * 0 + tx = tx + w * c := by ring
  have x2 : c * w + -s * h + tx = tx + (w * c - h * s) := by ring
  have x3 : c * 0 + -s * h + tx = tx + -(h * s) := by ring
  have y0 : s * 0 + c * 0 + ty = ty + 0 := by ring
  have y1 : s * w + c * 0 + ty = ty + w * s := by ring
  have y2 : s * w + c * h + ty = ty + (w * s + h * c) := by ring
  have y3 : s * 0 + c * h + ty = ty + h * c := by ring
  rw [x0, x1, x2, x3, y0, y1, y2, y3]

/-- The matrix under which eek_renderer_render_button paints, without a base transform
(origin 0, scale 1, identity matrix of the context) and with extra scale 1. -/
theorem render_button_matrix (M : Libm K) (view : EekBounds K) (place : button_place K)
    (bw aw ah : K) (sf : ℤ) (surf : Option ℕ) :
    eek_renderer_render_button M ⟨⟨view⟩, bw, aw, ah, 1, sf, 0, 0, surf⟩ cairo_matrix_identity
        place 1 =
      some ⟨M.cos (radians M place.row.angle), M.sin (radians M place.row.angle),
        -M.sin (radians M place.row.angle), M.cos (radians M place.row.angle),
        (eek_renderer_get_button_bounds M view place).x +
          (if M.sin (radians M place.row.angle) < 0 then 0
            else place.button.bounds.height * M.sin (radians M place.row.angle)),
        (eek_renderer_get_button_bounds M view place).y +
          (if M.sin (radians M place.row.angle) < 0
            then -place.button.bounds.width * M.sin (radians M place.row.angle) else 0)⟩ := by
  unfold eek_renderer_render_button
  rw [if_neg (by norm_num)]
  simp only [eek_renderer_apply_transformation_for_button]
  split_ifs <;>
    simp [cairo_translate, cairo_scale, cairo_rotate, cairo_matrix_identity, add_comm]

/-- Where the pivot offset is right: for a button at the origin of its row, of width and
height at least 0, and a row angle with a cosine of at least 0, the rectangle painted by
eek_renderer_render_button has exactly the box of eek_renderer_get_button_bounds as its
extent. -/
theorem render_button_extent_of_cos_nonneg (M : Libm K) (view row_bounds : EekBounds K)
    (angle : ℤ) (w h bw aw ah : K) (sf : ℤ) (surf : Option ℕ)
    (hw : 0 ≤ w) (hh : 0 ≤ h) (hc : 0 ≤ M.cos (radians M angle)) :
    (eek_renderer_render_button M ⟨⟨view⟩, bw, aw, ah, 1, sf, 0, 0, surf⟩ cairo_matrix_identity
        ⟨⟨row_bounds, angle⟩, ⟨⟨0, 0, w, h⟩⟩⟩ 1).map (fun m => rect_image_extent m w h) =
      some (eek_renderer_get_button_bounds M view ⟨⟨row_bounds, angle⟩, ⟨⟨0, 0, w, h⟩⟩⟩) := by
  rw [render_button_matrix, Option.map_some', rect_image_extent_rotation,
    button_bounds_at_row_origin M view ⟨row_bounds, angle⟩ w h hw hh]
  simp only [rotated_corner_box, eek_point_rotate, zero_mul, zero_add, sub_zero, add_zero,
    zero_sub]
  revert hc
  generalize M.cos (radians M angle) = c
  generalize M.sin (radians M angle) = s
  intro hc
  have hwc : 0 ≤ w * c := mul_nonneg hw hc
  have hhc : 0 ≤ h * c := mul_nonneg hh hc
  by_cases hs : s < 0
  · have hws : w * s ≤ 0 := mul_nonpos_of_nonneg_of_nonpos hw hs.le
    have hhs : h * s ≤ 0 := mul_nonpos_of_nonneg_of_nonpos hh hs.le
    have mx : min (min 0 (w * c)) (min (w * c - h * s) (-(h * s))) = 0 := by
      rw [min_eq_left hwc, min_eq_left]; apply le_min <;> linarith
    have my : min (min 0 (w * s)) (min (w * s + h * c) (h * c)) = w * s := by
      rw [min_eq_right hws, min_eq_left]; apply le_min <;> linarith
    simp only [if_pos hs, mx, my, add_zero]
    have ey : view.y + row_bounds.y + w * s + -w * s + w * s =
        view.y + row_bounds.y + w * s := by ring
    rw [ey]
  · push_neg at hs
    have hws : 0 ≤ w * s := mul_nonneg hw hs
    have hhs : 0 ≤ h * s := mul_nonneg hh hs
    have mx : min (min 0 (w * c)) (min (w * c - h * s) (-(h * s))) = -(h * s) := by
      have h1 : min (w * c - h * s) (-(h * s)) = -(h * s) := min_eq_right (by linarith)
      rw [min_eq_left hwc, h1, min_eq_right (by linarith)]
    have my : min (min 0 (w * s)) (min (w * s + h * c) (h * c)) = 0 := by
      rw [min_eq_left hws, min_eq_left]; apply le_min <;> linarith
    simp only [if_neg (not_lt.mpr hs), mx, my, add_zero]
    have ex : view.x + row_bounds.x + -(h * s) + h * s + -(h * s) =
        view.x + row_bounds.x + -(h * s) := by ring
    rw [ex]

end TransformLemmas

/-! ## BoundsCalculator -/

/-- C1 (the code departs from the claim at this input): for a view at the origin, a row
at the origin with angle 90 and the button {10, 10, 60, 60}, the function
eek_renderer_get_button_bounds returns {-70, 10, 80, 60}, while the box of the four
rotated corners alone is {-70, 10, 60, 60}: the unrotated corner `points[0]`, with which
`max` starts, stays in the maximum. -/
theorem button_bounds_sentinel_enlarges_box :
    eek_renderer_get_button_bounds (⟨Real.sin, Real.cos, Real.pi⟩ : Libm ℝ) ⟨0, 0, 800, 300⟩
        ⟨⟨⟨0, 0, 800, 100⟩, 90⟩, ⟨⟨10, 10, 60, 60⟩⟩⟩ = ⟨-70, 10, 80, 60⟩ ∧
    rotated_corner_box (⟨Real.sin, Real.cos, Real.pi⟩ : Libm ℝ) ⟨0, 0, 800, 300⟩
        ⟨⟨⟨0, 0, 800, 100⟩, 90⟩, ⟨⟨10, 10, 60, 60⟩⟩⟩ = ⟨-70, 10, 60, 60⟩ := by
  constructor
  · rw [get_button_bounds_eq]
    simp only [radians_real_90, Real.cos_pi_div_two, Real.sin_pi_div_two, rot_x, rot_y]
    norm_num
  · simp only [rotated_corner_box, eek_point_rotate, radians_real_90, Real.cos_pi_div_two,
      Real.sin_pi_div_two]
    norm_num

/-- C2: for row angle 0 and a button of width and height at least 0, the function
eek_renderer_get_button_bounds returns the button bounds translated by the view origin
plus the row origin, with the size unchanged. -/
theorem button_bounds_angle_zero (view_bounds row_bounds button_bounds : EekBounds ℝ)
    (hw : 0 ≤ button_bounds.width) (hh : 0 ≤ button_bounds.height) :
    eek_renderer_get_button_bounds (⟨Real.sin, Real.cos, Real.pi⟩ : Libm ℝ) view_bounds
        ⟨⟨row_bounds, 0⟩, ⟨button_bounds⟩⟩ =
      ⟨view_bounds.x + row_bounds.x + button_bounds.x,
       view_bounds.y + row_bounds.y + button_bounds.y,
       button_bounds.width, button_bounds.height⟩ := by
  rw [get_button_bounds_eq]
  simp only [radians_real_0, Real.cos_zero, Real.sin_zero, rot_x, rot_y, mul_one, mul_zero,
    sub_zero, add_zero, zero_add]
  have e1 : min button_bounds.x (min (button_bounds.x + button_bounds.width)
      (min (button_bounds.x + button_bounds.width)
        (min button_bounds.x (button_bounds.x + button_bounds.width)))) = button_bounds.x := by
    simp [hw]
  have e2 : min (button_bounds.y + button_bounds.height)
      (min (button_bounds.y + button_bounds.height) (min button_bounds.y
        (min button_bounds.y (button_bounds.y + button_bounds.height)))) = button_bounds.y := by
    simp [hh]
  have e3 : max button_bounds.x (max (button_bounds.x + button_bounds.width)
      (max (button_bounds.x + button_bounds.width)
        (max button_bounds.x button_bounds.x))) = button_bounds.x + button_bounds.width := by
    simp [hw]
  have e4 : max (button_bounds.y + button_bounds.height)
      (max (button_bounds.y + button_bounds.height) (max button_bounds.y
        (max button_bounds.y button_bounds.y))) = button_bounds.y + button_bounds.height := by
    simp [hh]
  rw [e1, e2, e3, e4]
  simp

/-- C2 at the end-to-end example of the specification: view {0,0,800,300}, row
{0,0,800,100}, angle 0, button {10,10,60,60} gives {10,10,60,60}. -/
theorem button_bounds_angle_zero_witness :
    (0 : ℝ) ≤ 60 ∧
    eek_renderer_get_button_bounds (⟨Real.sin, Real.cos, Real.pi⟩ : Libm ℝ) ⟨0, 0, 800, 300⟩
        ⟨⟨⟨0, 0, 800, 100⟩, 0⟩, ⟨⟨10, 10, 60, 60⟩⟩⟩ = ⟨10, 10, 60, 60⟩ :=
  ⟨by norm_num,
   (button_bounds_angle_zero ⟨0, 0, 800, 300⟩ ⟨0, 0, 800, 100⟩ ⟨10, 10, 60, 60⟩
      (by norm_num) (by norm_num)).trans (by norm_num)⟩

/-- C3 (the code departs from the claim at this input): a 40x60 button at (10, 10) in a
row of angle 90 gets the box {-70, 10, 80, 40}: its width is 80, not the button height
60. -/
theorem button_bounds_quarter_turn_off_origin :
    eek_renderer_get_button_bounds (⟨Real.sin, Real.cos, Real.pi⟩ : Libm ℝ) ⟨0, 0, 800, 300⟩
        ⟨⟨⟨0, 0, 800, 100⟩, 90⟩, ⟨⟨10, 10, 40, 60⟩⟩⟩ = ⟨-70, 10, 80, 40⟩ := by
  rw [get_button_bounds_eq]
  simp only [radians_real_90, Real.cos_pi_div_two, Real.sin_pi_div_two, rot_x, rot_y]
  norm_num

/-- C4 (the code departs from the claim at this input): the square button {10, 0, 10, 10}
gets a box of width 20 and height 10 at row angle 90, and a box of width 10 and height 20
at row angle -90. -/
theorem button_bounds_square_opposite_angles_differ :
    eek_renderer_get_button_bounds (⟨Real.sin, Real.cos, Real.pi⟩ : Libm ℝ) ⟨0, 0, 800, 300⟩
        ⟨⟨⟨0, 0, 800, 100⟩, 90⟩, ⟨⟨10, 0, 10, 10⟩⟩⟩ = ⟨-10, 10, 20, 10⟩ ∧
    eek_renderer_get_button_bounds (⟨Real.sin, Real.cos, Real.pi⟩ : Libm ℝ) ⟨0, 0, 800, 300⟩
        ⟨⟨⟨0, 0, 800, 100⟩, -90⟩, ⟨⟨10, 0, 10, 10⟩⟩⟩ = ⟨0, -20, 10, 20⟩ := by
  constructor
  · rw [get_button_bounds_eq]
    simp only [radians_real_90, Real.cos_pi_div_two, Real.sin_pi_div_two, rot_x, rot_y]
    norm_num
  · rw [get_button_bounds_eq]
    simp only [radians_real_neg_90, Real.cos_neg, Real.sin_neg, Real.cos_pi_div_two,
      Real.sin_pi_div_two, rot_x, rot_y]
    norm_num

/-- C5: for a button of width and height greater than 0 and an integer row angle that is
not a multiple of 90, the box returned by eek_renderer_get_button_bounds has a larger
area than the button: returned width * returned height > w * h. -/
theorem button_bounds_area_exceeds_footprint
    (view_bounds row_bounds button_bounds : EekBounds ℝ) (angle : ℤ)
    (hw : 0 < button_bounds.width) (hh : 0 < button_bounds.height)
    (hangle : ¬ (90 : ℤ) ∣ angle) :
    button_bounds.width * button_bounds.height <
      (eek_renderer_get_button_bounds (⟨Real.sin, Real.cos, Real.pi⟩ : Libm ℝ) view_bounds
          ⟨⟨row_bounds, angle⟩, ⟨button_bounds⟩⟩).width *
        (eek_renderer_get_button_bounds (⟨Real.sin, Real.cos, Real.pi⟩ : Libm ℝ) view_bounds
          ⟨⟨row_bounds, angle⟩, ⟨button_bounds⟩⟩).height := by
  obtain ⟨hc, hs⟩ := real_trig_ne_zero angle hangle
  exact button_bounds_area_of_unit_circle (⟨Real.sin, Real.cos, Real.pi⟩ : Libm ℝ) view_bounds
    ⟨⟨row_bounds, angle⟩, ⟨button_bounds⟩⟩ hw hh hc hs (Real.cos_sq_add_sin_sq _)

/-- C5 at a 40x60 button in a row of angle 45. -/
theorem button_bounds_area_exceeds_footprint_witness :
    ¬ (90 : ℤ) ∣ 45 ∧ (40 : ℝ) * 60 <
      (eek_renderer_get_button_bounds (⟨Real.sin, Real.cos, Real.pi⟩ : Libm ℝ) ⟨0, 0, 800, 300⟩
          ⟨⟨⟨0, 0, 800, 100⟩, 45⟩, ⟨⟨10, 10, 40, 60⟩⟩⟩).width *
        (eek_renderer_get_button_bounds (⟨Real.sin, Real.cos, Real.pi⟩ : Libm ℝ) ⟨0, 0, 800, 300⟩
          ⟨⟨⟨0, 0, 800, 100⟩, 45⟩, ⟨⟨10, 10, 40, 60⟩⟩⟩).height :=
  ⟨by decide,
   button_bounds_area_exceeds_footprint ⟨0, 0, 800, 300⟩ ⟨0, 0, 800, 100⟩ ⟨10, 10, 40, 60⟩ 45
    (by norm_num) (by norm_num) (by decide)⟩

/-! ## HitTester -/

/-- C6 (the code departs from the claim at this input): for the bounds {0, 0, 60, 60},
origin (0, 0) and angle 0, the function eek_are_bounds_inside returns 1 for the point
(30, -1/128), which lies outside the quadrilateral: the cross product -60/128 of the
first edge test is converted to the integer 0 by sign. -/
theorem hit_test_accepts_point_outside_quadrilateral :
    eek_are_bounds_inside (⟨Real.sin, Real.cos, Real.pi⟩ : Libm ℝ) ⟨0, 0, 60, 60⟩
        ⟨30, -1 / 128⟩ ⟨0, 0⟩ 0 = 1 ∧
    ¬ in_quadrilateral (⟨Real.sin, Real.cos, Real.pi⟩ : Libm ℝ) ⟨0, 0, 60, 60⟩
        ⟨30, -1 / 128⟩ ⟨0, 0⟩ 0 := by
  constructor
  · simp only [eek_are_bounds_inside, inside_loop_step, eek_point_rotate, radians_real_0,
      Real.cos_zero, Real.sin_zero, sign_neg_iff, cross_product]
    norm_num
  · simp only [in_quadrilateral, in_closed_triangle, inside_loop_step, eek_point_rotate,
      radians_real_0, Real.cos_zero, Real.sin_zero]
    rintro (⟨u, v, w, hu, hv, hw, -, -, hy⟩ | ⟨u, v, w, hu, hv, hw, -, -, hy⟩) <;>
      norm_num at hy <;> nlinarith

/-- C7 (the code departs from the claim at this input): for the bounds
{0, 0, 100000, 100000}, origin (0, 0) and angle 0 the centre of the button is the point
(50000, 50000), and eek_are_bounds_inside returns 0 for it.  The cross products of the
centre with the edges are 5000000000, too large for the int that sign returns, so the
converted value is negative, while the cross product with the diagonal is 0: in both
triangles the three tests disagree. -/
theorem hit_test_misses_centre_of_large_button :
    eek_point_rotate (⟨Real.sin, Real.cos, Real.pi⟩ : Libm ℝ)
        ⟨0 + 100000 / 2, 0 + 100000 / 2⟩ 0 = ⟨50000, 50000⟩ ∧
    cross_product (⟨50000, 50000⟩ : EekPoint ℝ) ⟨0, 0⟩ ⟨0 + 100000, 0⟩ = 5000000000 ∧
    sign (⟨50000, 50000⟩ : EekPoint ℝ) ⟨0, 0⟩ ⟨0 + 100000, 0⟩ = -2147483648 ∧
    eek_are_bounds_inside (⟨Real.sin, Real.cos, Real.pi⟩ : Libm ℝ) ⟨0, 0, 100000, 100000⟩
      ⟨0 + (eek_point_rotate (⟨Real.sin, Real.cos, Real.pi⟩ : Libm ℝ)
          ⟨0 + 100000 / 2, 0 + 100000 / 2⟩ 0).x,
       0 + (eek_point_rotate (⟨Real.sin, Real.cos, Real.pi⟩ : Libm ℝ)
          ⟨0 + 100000 / 2, 0 + 100000 / 2⟩ 0).y⟩
      ⟨0, 0⟩ 0 = 0 := by
  refine ⟨?_, ?_, ?_, ?_⟩
  · simp only [eek_point_rotate, radians_real_0, Real.cos_zero, Real.sin_zero]
    norm_num
  · simp only [cross_product]
    norm_num
  · simp only [sign, double_to_int]
    norm_num
  · simp only [eek_are_bounds_inside, inside_loop_step, eek_point_rotate, radians_real_0,
      Real.cos_zero, Real.sin_zero, sign_neg_iff, cross_product]
    norm_num

/-- C8 (the code departs from the claim at this input): in the view {0, 0, 800, 300} the
button {739, 10, 60 + 127/128, 60} of a row at the origin with angle 0 has its four
corners inside the view rectangle (its right edge is at x = 800 - 1/128), the point
(800 + 1/256, 40) lies outside the view rectangle, and eek_are_bounds_inside returns 1
for it. -/
theorem hit_test_accepts_point_outside_view :
    in_rect (⟨0, 0, 800, 300⟩ : EekBounds ℝ)
      (inside_loop_step (⟨Real.sin, Real.cos, Real.pi⟩ : Libm ℝ) ⟨0, 0⟩ 0 ⟨739, 10⟩) ∧
    in_rect (⟨0, 0, 800, 300⟩ : EekBounds ℝ)
      (inside_loop_step (⟨Real.sin, Real.cos, Real.pi⟩ : Libm ℝ) ⟨0, 0⟩ 0
        ⟨739 + (60 + 127 / 128), 10⟩) ∧
    in_rect (⟨0, 0, 800, 300⟩ : EekBounds ℝ)
      (inside_loop_step (⟨Real.sin, Real.cos, Real.pi⟩ : Libm ℝ) ⟨0, 0⟩ 0
        ⟨739 + (60 + 127 / 128), 10 + 60⟩) ∧
    in_rect (⟨0, 0, 800, 300⟩ : EekBounds ℝ)
      (inside_loop_step (⟨Real.sin, Real.cos, Real.pi⟩ : Libm ℝ) ⟨0, 0⟩ 0 ⟨739, 10 + 60⟩) ∧
    ¬ in_rect (⟨0, 0, 800, 300⟩ : EekBounds ℝ) ⟨800 + 1 / 256, 40⟩ ∧
    eek_are_bounds_inside (⟨Real.sin, Real.cos, Real.pi⟩ : Libm ℝ)
        ⟨739, 10, 60 + 127 / 128, 60⟩ ⟨800 + 1 / 256, 40⟩ ⟨0, 0⟩ 0 = 1 := by
  refine ⟨?_, ?_, ?_, ?_, ?_, ?_⟩
  · simp only [in_rect, inside_loop_step, eek_point_rotate, radians_real_0, Real.cos_zero,
      Real.sin_zero]
    norm_num
  · simp only [in_rect, inside_loop_step, eek_point_rotate, radians_real_0, Real.cos_zero,
      Real.sin_zero]
    norm_num
  · simp only [in_rect, inside_loop_step, eek_point_rotate, radians_real_0, Real.cos_zero,
      Real.sin_zero]
    norm_num
  · simp only [in_rect, inside_loop_step, eek_point_rotate, radians_real_0, Real.cos_zero,
      Real.sin_zero]
    norm_num
  · simp only [in_rect]
    norm_num
  · simp only [eek_are_bounds_inside, inside_loop_step, eek_point_rotate, radians_real_0,
      Real.cos_zero, Real.sin_zero, sign_neg_iff, cross_product]
    norm_num

/-- C9 (the code departs from the claim at this input): for the view {0, 0, 800, 300},
the row {0, 0, 800, 100} of angle 0 and the button {10, 10, 60, 60}, the function
eek_are_bounds_inside (origin = view origin + row origin) returns 1 for the point
(40, 10 - 1/128), which lies outside the box {10, 10, 60, 60} that
eek_renderer_get_button_bounds returns. -/
theorem hit_test_accepts_point_outside_box :
    eek_are_bounds_inside (⟨Real.sin, Real.cos, Real.pi⟩ : Libm ℝ) ⟨10, 10, 60, 60⟩
        ⟨40, 10 - 1 / 128⟩ ⟨0 + 0, 0 + 0⟩ 0 = 1 ∧
    eek_renderer_get_button_bounds (⟨Real.sin, Real.cos, Real.pi⟩ : Libm ℝ) ⟨0, 0, 800, 300⟩
        ⟨⟨⟨0, 0, 800, 100⟩, 0⟩, ⟨⟨10, 10, 60, 60⟩⟩⟩ = ⟨10, 10, 60, 60⟩ ∧
    ¬ in_rect (eek_renderer_get_button_bounds (⟨Real.sin, Real.cos, Real.pi⟩ : Libm ℝ)
        ⟨0, 0, 800, 300⟩ ⟨⟨⟨0, 0, 800, 100⟩, 0⟩, ⟨⟨10, 10, 60, 60⟩⟩⟩) ⟨40, 10 - 1 / 128⟩ := by
  have hb : eek_renderer_get_button_bounds (⟨Real.sin, Real.cos, Real.pi⟩ : Libm ℝ)
      ⟨0, 0, 800, 300⟩ ⟨⟨⟨0, 0, 800, 100⟩, 0⟩, ⟨⟨10, 10, 60, 60⟩⟩⟩ = ⟨10, 10, 60, 60⟩ := by
    rw [get_button_bounds_eq]
    simp only [radians_real_0, Real.cos_zero, Real.sin_zero, rot_x, rot_y]
    norm_num
  refine ⟨?_, hb, ?_⟩
  · simp only [eek_are_bounds_inside, inside_loop_step, eek_point_rotate, radians_real_0,
      Real.cos_zero, Real.sin_zero, sign_neg_iff, cross_product]
    norm_num
  · rw [hb]
    simp only [in_rect]
    norm_num

/-! ## TransformStack -/

/-- C10 (the code departs from the claim at this input): with no base transform (origin
0, scale 1, identity matrix) and extra scale 1, for a view and a row at the origin, row
angle 180 and the button {0, 0, 40, 60}, the transformation composed by
eek_renderer_render_button maps the local rectangle [0,40] x [0,60] onto the extent
{-80, -120, 40, 60}, while eek_renderer_get_button_bounds returns {-40, -60, 40, 60}. -/
theorem render_button_extent_differs_from_box :
    (eek_renderer_render_button (⟨Real.sin, Real.cos, Real.pi⟩ : Libm ℝ)
        ⟨⟨⟨0, 0, 800, 300⟩⟩, 0, 800, 300, 1, 1, 0, 0, none⟩ cairo_matrix_identity
        ⟨⟨⟨0, 0, 800, 100⟩, 180⟩, ⟨⟨0, 0, 40, 60⟩⟩⟩ 1).map
      (fun m => rect_image_extent m 40 60) = some ⟨-80, -120, 40, 60⟩ ∧
    eek_renderer_get_button_bounds (⟨Real.sin, Real.cos, Real.pi⟩ : Libm ℝ) ⟨0, 0, 800, 300⟩
        ⟨⟨⟨0, 0, 800, 100⟩, 180⟩, ⟨⟨0, 0, 40, 60⟩⟩⟩ = ⟨-40, -60, 40, 60⟩ := by
  have hb : eek_renderer_get_button_bounds (⟨Real.sin, Real.cos, Real.pi⟩ : Libm ℝ)
      ⟨0, 0, 800, 300⟩ ⟨⟨⟨0, 0, 800, 100⟩, 180⟩, ⟨⟨0, 0, 40, 60⟩⟩⟩ = ⟨-40, -60, 40, 60⟩ := by
    rw [get_button_bounds_eq]
    simp only [radians_real_180, Real.cos_pi, Real.sin_pi, rot_x, rot_y]
    norm_num
  refine ⟨?_, hb⟩
  unfold eek_renderer_render_button
  rw [if_neg (by norm_num)]
  simp only [hb, Option.map_some', eek_renderer_apply_transformation_for_button,
    radians_real_180, Real.sin_pi, Real.cos_pi, lt_irrefl, if_false, cairo_translate,
    cairo_scale, cairo_rotate, cairo_matrix_identity, rect_image_extent,
    cairo_matrix_transform_point]
  norm_num

/-! ## Auxiliary lemmas: the renderer state -/

/-- After invalidate no surface is cached and nothing else has changed. -/
theorem invalidate_eq {K : Type} (priv : EekRendererPrivate K) :
    invalidate priv =
      ⟨priv.keyboard, priv.border_width, priv.allocation_width, priv.allocation_height,
       priv.scale, priv.scale_factor, priv.origin_x, priv.origin_y, none⟩ := by
  unfold invalidate
  obtain ⟨kb, bw, aw, ah, sc, sf, ox, oy, surf⟩ := priv
  cases surf <;> simp

section RendererLemmas

variable {K : Type} [LinearOrderedField K]

theorem MIN_eq_min (a b : K) : MIN a b = min a b := by
  unfold MIN
  rw [min_def]
  split_ifs <;> first | rfl | (exfalso; linarith) | linarith

/-- The integer value of a floor survives the conversion back to an integer. -/
theorem double_to_int_libm_floor [FloorRing K] (x : K)
    (hlo : -2147483648 ≤ ⌊x⌋) (hhi : ⌊x⌋ ≤ 2147483647) :
    double_to_int (libm_floor x) = ⌊x⌋ := by
  have h1 : (-2147483649 : K) < ((⌊x⌋ : ℤ) : K) := by
    have : (-2147483649 : ℤ) < ⌊x⌋ := by omega
    exact_mod_cast this
  have h2 : ((⌊x⌋ : ℤ) : K) < 2147483648 := by
    have : ⌊x⌋ < (2147483648 : ℤ) := by omega
    exact_mod_cast this
  unfold libm_floor
  rw [double_to_int_of_in_range _ h1 h2]
  split_ifs
  · exact Int.floor_intCast _
  · exact Int.ceil_intCast _

/-- The renderer after eek_renderer_set_allocation_size with a valid size. -/
theorem set_allocation_size_eq [FloorRing K] (priv : EekRendererPrivate K) (width height : K)
    (hw : 0 < width) (hh : 0 < height) :
    eek_renderer_set_allocation_size priv width height =
      ⟨priv.keyboard, priv.border_width, width, height,
       allocation_scale width height
         (priv.keyboard.current_view_bounds.x * 2 + priv.keyboard.current_view_bounds.width)
         (priv.keyboard.current_view_bounds.y * 2 + priv.keyboard.current_view_bounds.height),
       priv.scale_factor,
       double_to_int (libm_floor ((width - allocation_scale width height
         (priv.keyboard.current_view_bounds.x * 2 + priv.keyboard.current_view_bounds.width)
         (priv.keyboard.current_view_bounds.y * 2 + priv.keyboard.current_view_bounds.height) *
           (priv.keyboard.current_view_bounds.x * 2 +
              priv.keyboard.current_view_bounds.width)) / 2)),
       double_to_int (libm_floor ((height - allocation_scale width height
         (priv.keyboard.current_view_bounds.x * 2 + priv.keyboard.current_view_bounds.width)
         (priv.keyboard.current_view_bounds.y * 2 + priv.keyboard.current_view_bounds.height) *
           (priv.keyboard.current_view_bounds.y * 2 +
              priv.keyboard.current_view_bounds.height)) / 2)),
       none⟩ := by
  unfold eek_renderer_set_allocation_size
  rw [if_neg (by simp [hw, hh])]
  simp only [invalidate_eq]

/-- With the identity for the rounding, the function with explicit rounding is
eek_renderer_set_allocation_size in exact arithmetic. -/
theorem set_allocation_size_rounded_id [FloorRing K] (priv : EekRendererPrivate K)
    (width height : K) :
    eek_renderer_set_allocation_size_rounded id priv width height =
      eek_renderer_set_allocation_size priv width height := by
  simp only [eek_renderer_set_allocation_size_rounded, eek_renderer_set_allocation_size,
    allocation_scale_rounded, allocation_scale, id]

/-- With a valid allocation eek_renderer_render_keyboard always makes a new surface,
paints the whole view onto it, copies it to the widget and paints the changed buttons. -/
theorem render_keyboard_eq (env : RenderEnv K) (view : squeek_view K)
    (changed : List (button_place K × Bool × Bool))
    (hw : 0 < env.priv.allocation_width) (hh : 0 < env.priv.allocation_height) :
    eek_renderer_render_keyboard env view changed =
      ⟨⟨env.priv.keyboard, env.priv.border_width, env.priv.allocation_width,
         env.priv.allocation_height, env.priv.scale, env.priv.scale_factor,
         env.priv.origin_x, env.priv.origin_y, some env.surfaces_created⟩,
       env.surfaces_created + 1,
       env.ops ++
         (PaintOp.surface_create env.surfaces_created env.priv.allocation_width
             env.priv.allocation_height ::
           PaintOp.view_background env.surfaces_created env.priv.allocation_width
             env.priv.allocation_height ::
           (view.rows.map (fun r => r.2.map (fun b =>
             PaintOp.button_on_surface env.surfaces_created r.1 b false false))).flatten) ++
         (PaintOp.paint_surface env.surfaces_created ::
           changed.map (fun c => PaintOp.changed_button c.1 c.2.1 c.2.2))⟩ := by
  unfold eek_renderer_render_keyboard
  rw [if_neg (not_not.mpr hw), if_neg (not_not.mpr hh)]
  rfl

end RendererLemmas

/-! ## Auxiliary lemmas: rounding to a double -/

/-- The binary exponent of a positive rational number between two powers of two. -/
theorem int_log_two_eq (r : ℚ) (e : ℤ) (h1 : (2 : ℚ) ^ e ≤ r) (h2 : r < 2 ^ (e + 1)) :
    Int.log 2 r = e := by
  have hr : 0 < r := lt_of_lt_of_le (by positivity) h1
  have a : e ≤ Int.log 2 r := (Int.zpow_le_iff_le_log (by norm_num) hr).mp (by exact_mod_cast h1)
  have b : Int.log 2 r < e + 1 := (Int.lt_zpow_iff_log_lt (by norm_num) hr).mp (by exact_mod_cast h2)
  omega

/-- The rounding of `q` is the multiple `m * 2 ^ (e - 52)` when `e` is the binary exponent of
`q` and `m` is within less than a half of `q / 2 ^ (e - 52)`. -/
theorem binary64_round_eq (q : ℚ) (e m : ℤ) (h1 : (2 : ℚ) ^ e ≤ |q|) (h2 : |q| < 2 ^ (e + 1))
    (hm : |q / 2 ^ (e - 52) - m| < 1 / 2) : binary64_round q = m * 2 ^ (e - 52) := by
  have hq : q ≠ 0 := by
    intro h
    rw [h, abs_zero] at h1
    have : (0 : ℚ) < 2 ^ e := by positivity
    linarith
  unfold binary64_round
  rw [if_neg hq, int_log_two_eq |q| e h1 h2]
  simp only []
  generalize q / 2 ^ (e - 52) = n at hm ⊢
  have hf1 : ((⌊n⌋ : ℤ) : ℚ) ≤ n := Int.floor_le n
  have hf2 : n < ((⌊n⌋ : ℤ) : ℚ) + 1 := Int.lt_floor_add_one n
  obtain ⟨hm1, hm2⟩ := abs_lt.mp hm
  congr 1
  split_ifs with c1 c2 c3
  · have : (m : ℚ) < ⌊n⌋ + 1 := by linarith
    have h3 : m < ⌊n⌋ + 1 := by exact_mod_cast this
    have : ((⌊n⌋ : ℤ) : ℚ) - 1 < m := by linarith
    have h4 : ⌊n⌋ - 1 < m := by exact_mod_cast this
    have : ⌊n⌋ = m := by omega
    exact_mod_cast this
  · have : ((⌊n⌋ : ℤ) : ℚ) < m := by linarith
    have h3 : ⌊n⌋ < m := by exact_mod_cast this
    have : (m : ℚ) < ⌊n⌋ + 2 := by linarith
    have h4 : m < ⌊n⌋ + 2 := by exact_mod_cast this
    have : ⌊n⌋ + 1 = m := by omega
    exact_mod_cast this
  · exfalso
    have hr : n - ⌊n⌋ = 1 / 2 := le_antisymm (not_lt.mp c2) (not_lt.mp c1)
    have : ((⌊n⌋ : ℤ) : ℚ) < m := by linarith
    have h3 : ⌊n⌋ < m := by exact_mod_cast this
    have : (m : ℚ) < ⌊n⌋ + 1 := by linarith
    have h4 : m < ⌊n⌋ + 1 := by exact_mod_cast this
    omega
  · exfalso
    have hr : n - ⌊n⌋ = 1 / 2 := le_antisymm (not_lt.mp c2) (not_lt.mp c1)
    have : ((⌊n⌋ : ℤ) : ℚ) < m := by linarith
    have h3 : ⌊n⌋ < m := by exact_mod_cast this
    have : (m : ℚ) < ⌊n⌋ + 1 := by linarith
    have h4 : m < ⌊n⌋ + 1 := by exact_mod_cast this
    omega

/-- Zero is a double. -/
theorem binary64_round_zero : binary64_round 0 = 0 := by
  simp [binary64_round]

/-! ## The base transform -/

section BaseTransform

variable {K : Type} [LinearOrderedField K] [FloorRing K]

/-- In exact arithmetic and for an allocation below 2 ^ 32 in both directions, the
origin that eek_renderer_set_allocation_size stores for a view with
W = 2 vx + vw > 0 and H = 2 vy + vh > 0 is not negative and is the floor of the half
margin: 0 <= origin_x <= (width - scale W) / 2 < origin_x + 1, and likewise for
origin_y. -/
theorem set_allocation_size_centres_exact (priv : EekRendererPrivate K) (width height : K)
    (hw : 0 < width) (hh : 0 < height)
    (hwfit : width < 4294967296) (hhfit : height < 4294967296)
    (hW : 0 < 2 * priv.keyboard.current_view_bounds.x +
      priv.keyboard.current_view_bounds.width)
    (hH : 0 < 2 * priv.keyboard.current_view_bounds.y +
      priv.keyboard.current_view_bounds.height) :
    (0 ≤ (eek_renderer_set_allocation_size priv width height).origin_x ∧
     ((eek_renderer_set_allocation_size priv width height).origin_x : K) ≤
       (width - (eek_renderer_set_allocation_size priv width height).scale *
         (2 * priv.keyboard.current_view_bounds.x +
           priv.keyboard.current_view_bounds.width)) / 2 ∧
     (width - (eek_renderer_set_allocation_size priv width height).scale *
         (2 * priv.keyboard.current_view_bounds.x +
           priv.keyboard.current_view_bounds.width)) / 2 <
       ((eek_renderer_set_allocation_size priv width height).origin_x : K) + 1) ∧
    (0 ≤ (eek_renderer_set_allocation_size priv width height).origin_y ∧
     ((eek_renderer_set_allocation_size priv width height).origin_y : K) ≤
       (height - (eek_renderer_set_allocation_size priv width height).scale *
         (2 * priv.keyboard.current_view_bounds.y +
           priv.keyboard.current_view_bounds.height)) / 2 ∧
     (height - (eek_renderer_set_allocation_size priv width height).scale *
         (2 * priv.keyboard.current_view_bounds.y +
           priv.keyboard.current_view_bounds.height)) / 2 <
       ((eek_renderer_set_allocation_size priv width height).origin_y : K) + 1) := by
  rw [set_allocation_size_eq priv width height hw hh]
  simp only [mul_comm (2 : K)] at hW hH ⊢
  generalize priv.keyboard.current_view_bounds.x * 2 +
    priv.keyboard.current_view_bounds.width = W at hW ⊢
  generalize priv.keyboard.current_view_bounds.y * 2 +
    priv.keyboard.current_view_bounds.height = H at hH ⊢
  have hscale : allocation_scale width height W H = min (width / W) (height / H) := by
    simp only [allocation_scale, if_neg hW.ne', if_neg hH.ne', MIN_eq_min]
  have hpos : 0 < allocation_scale width height W H := by
    rw [hscale]
    exact lt_min (div_pos hw hW) (div_pos hh hH)
  generalize allocation_scale width height W H = scale at hscale hpos ⊢
  have hsW : scale * W ≤ width := by
    have : scale ≤ width / W := by rw [hscale]; exact min_le_left _ _
    calc scale * W ≤ width / W * W := mul_le_mul_of_nonneg_right this hW.le
      _ = width := div_mul_cancel₀ width hW.ne'
  have hsH : scale * H ≤ height := by
    have : scale ≤ height / H := by rw [hscale]; exact min_le_right _ _
    calc scale * H ≤ height / H * H := mul_le_mul_of_nonneg_right this hH.le
      _ = height := div_mul_cancel₀ height hH.ne'
  have hsW0 : 0 < scale * W := mul_pos hpos hW
  have hsH0 : 0 < scale * H := mul_pos hpos hH
  have fx0 : 0 ≤ ⌊(width - scale * W) / 2⌋ :=
    Int.floor_nonneg.mpr (div_nonneg (by linarith) (by norm_num))
  have fy0 : 0 ≤ ⌊(height - scale * H) / 2⌋ :=
    Int.floor_nonneg.mpr (div_nonneg (by linarith) (by norm_num))
  have fx1 : ⌊(width - scale * W) / 2⌋ ≤ 2147483647 := by
    have h1 : ((⌊(width - scale * W) / 2⌋ : ℤ) : K) ≤ (width - scale * W) / 2 := Int.floor_le _
    have h2 : ((⌊(width - scale * W) / 2⌋ : ℤ) : K) < ((2147483648 : ℤ) : K) := by
      push_cast
      linarith
    have h3 : ⌊(width - scale * W) / 2⌋ < 2147483648 := by exact_mod_cast h2
    omega
  have fy1 : ⌊(height - scale * H) / 2⌋ ≤ 2147483647 := by
    have h1 : ((⌊(height - scale * H) / 2⌋ : ℤ) : K) ≤ (height - scale * H) / 2 :=
      Int.floor_le _
    have h2 : ((⌊(height - scale * H) / 2⌋ : ℤ) : K) < ((2147483648 : ℤ) : K) := by
      push_cast
      linarith
    have h3 : ⌊(height - scale * H) / 2⌋ < 2147483648 := by exact_mod_cast h2
    omega
  rw [double_to_int_libm_floor _ (by omega) fx1, double_to_int_libm_floor _ (by omega) fy1]
  exact ⟨⟨fx0, Int.floor_le _, Int.lt_floor_add_one _⟩,
    ⟨fy0, Int.floor_le _, Int.lt_floor_add_one _⟩⟩

/-- C12 fails in double arithmetic: for a view of bounds {0, 0, 169, 100}, so W = 169 > 0
and H = 100 > 0, and an allocation of 360 x 300, with the result of every operation
rounded to the nearest double, eek_renderer_set_allocation_size stores the scale
1199183332731789 / 562949953421312, the double nearest to 360 / 169, and origin_x = -1,
so 0 <= origin_x does not hold; in exact arithmetic the origin_x is 0. -/
theorem set_allocation_size_origin_negative :
    (eek_renderer_set_allocation_size_rounded binary64_round
        (eek_renderer_new ⟨⟨0, 0, 169, 100⟩⟩) 360 300).scale =
      1199183332731789 / 562949953421312 ∧
    (eek_renderer_set_allocation_size_rounded binary64_round
        (eek_renderer_new ⟨⟨0, 0, 169, 100⟩⟩) 360 300).origin_x = -1 ∧
    ¬ (0 ≤ (eek_renderer_set_allocation_size_rounded binary64_round
        (eek_renderer_new ⟨⟨0, 0, 169, 100⟩⟩) 360 300).origin_x) ∧
    (eek_renderer_set_allocation_size (eek_renderer_new ⟨⟨0, 0, 169, 100⟩⟩)
        (360 : ℚ) 300).origin_x = 0 := by
  have r1 : binary64_round 169 = 169 := by
    rw [binary64_round_eq 169 7 5946158883012608 (by norm_num [abs_of_pos])
      (by norm_num [abs_of_pos]) (by norm_num [abs_lt])]
    norm_num
  have r2 : binary64_round 100 = 100 := by
    rw [binary64_round_eq 100 6 7036874417766400 (by norm_num [abs_of_pos])
      (by norm_num [abs_of_pos]) (by norm_num [abs_lt])]
    norm_num
  have r3 : binary64_round (360 / 169) = 1199183332731789 / 562949953421312 := by
    rw [binary64_round_eq (360 / 169) 1 4796733330927156 (by norm_num [abs_of_pos])
      (by norm_num [abs_of_pos]) (by norm_num [abs_lt])]
    norm_num
  have r4 : binary64_round 3 = 3 := by
    rw [binary64_round_eq 3 1 6755399441055744 (by norm_num [abs_of_pos])
      (by norm_num [abs_of_pos]) (by norm_num [abs_lt])]
    norm_num
  have r5 : binary64_round (202661983231672341 / 562949953421312) =
      6333186975989761 / 17592186044416 := by
    rw [binary64_round_eq (202661983231672341 / 562949953421312) 8 6333186975989761
      (by norm_num [abs_of_pos]) (by norm_num [abs_of_pos]) (by norm_num [abs_lt])]
    norm_num
  have r6 : binary64_round (-1 / 17592186044416) = -1 / 17592186044416 := by
    rw [binary64_round_eq (-1 / 17592186044416) (-44) (-4503599627370496)
      (by norm_num [abs_of_neg]) (by norm_num [abs_of_neg]) (by norm_num [abs_lt])]
    norm_num
  have r7 : binary64_round (-1 / 35184372088832) = -1 / 35184372088832 := by
    rw [binary64_round_eq (-1 / 35184372088832) (-45) (-4503599627370496)
      (by norm_num [abs_of_neg]) (by norm_num [abs_of_neg]) (by norm_num [abs_lt])]
    norm_num
  have hscale : (eek_renderer_set_allocation_size_rounded binary64_round
        (eek_renderer_new ⟨⟨0, 0, 169, 100⟩⟩) 360 300).scale =
      1199183332731789 / 562949953421312 := by
    simp only [eek_renderer_set_allocation_size_rounded, eek_renderer_new,
      allocation_scale_rounded, invalidate_eq]
    norm_num [binary64_round_zero, r1, r2, r3, r4, MIN]
  have horigin : (eek_renderer_set_allocation_size_rounded binary64_round
        (eek_renderer_new ⟨⟨0, 0, 169, 100⟩⟩) 360 300).origin_x = -1 := by
    simp only [eek_renderer_set_allocation_size_rounded, eek_renderer_new,
      allocation_scale_rounded, invalidate_eq]
    norm_num [binary64_round_zero, r1, r2, r3, r4, MIN]
    have hf : ⌊(-1 / 35184372088832 : ℚ)⌋ = -1 := by
      rw [Int.floor_eq_iff]
      norm_num
    rw [r5, show (360 : ℚ) - 6333186975989761 / 17592186044416 = -1 / 17592186044416 by norm_num,
      r6, show (-1 / 17592186044416 : ℚ) / 2 = -1 / 35184372088832 by norm_num, r7,
      double_to_int_libm_floor _ (by rw [hf]; norm_num) (by rw [hf]; norm_num), hf]
  refine ⟨hscale, horigin, ?_, ?_⟩
  · rw [horigin]
    norm_num
  · rw [set_allocation_size_eq _ _ _ (by norm_num) (by norm_num)]
    norm_num [eek_renderer_new, allocation_scale, MIN]
    rw [double_to_int_libm_floor _ (by simp) (by simp), Int.floor_zero]

/-- C20: for a width or a height that is not greater than 0,
eek_renderer_set_allocation_size returns with every member of the renderer unchanged:
allocation, scale, origin and cached surface. -/
theorem set_allocation_size_rejects (priv : EekRendererPrivate K) (width height : K)
    (h : width ≤ 0 ∨ height ≤ 0) :
    eek_renderer_set_allocation_size priv width height = priv := by
  unfold eek_renderer_set_allocation_size
  rw [if_pos]
  rintro ⟨h1, h2⟩
  rcases h with h | h <;> linarith

/-- C20 at the size (-5, 300) for the sample renderer, whose cached surface stays. -/
theorem set_allocation_size_rejects_witness :
    ((-5 : ℚ) ≤ 0 ∨ (300 : ℚ) ≤ 0) ∧
    eek_renderer_set_allocation_size sample_priv (-5) 300 = sample_priv :=
  ⟨Or.inl (by norm_num),
   set_allocation_size_rejects sample_priv (-5) 300 (Or.inl (by norm_num))⟩

end BaseTransform

/-! ## LabelFitter -/

section LabelFitter

variable {K : Type} [LinearOrderedField K]

/-- C13: for a button of width w > 0 and height h > 0 and a border width b >= 0, the
label scale computed in eek_renderer_render_button_label,
min((w - b) / w, (h - b) / h), equals 1 - b / min(w, h); it is 1 when b = 0. -/
theorem label_scale_closed_form (priv : EekRendererPrivate K) (label : String)
    (button : squeek_button K)
    (hw : 0 < button.bounds.width) (hh : 0 < button.bounds.height)
    (hb : 0 ≤ priv.border_width) :
    eek_renderer_render_button_label_scale priv (some label) button =
        some (min ((button.bounds.width - priv.border_width) / button.bounds.width)
          ((button.bounds.height - priv.border_width) / button.bounds.height)) ∧
    eek_renderer_render_button_label_scale priv (some label) button =
        some (1 - priv.border_width / min button.bounds.width button.bounds.height) ∧
    (priv.border_width = 0 →
      eek_renderer_render_button_label_scale priv (some label) button = some 1) := by
  have e : eek_renderer_render_button_label_scale priv (some label) button =
      some (min ((button.bounds.width - priv.border_width) / button.bounds.width)
        ((button.bounds.height - priv.border_width) / button.bounds.height)) := by
    simp only [eek_renderer_render_button_label_scale, MIN_eq_min]
  revert e hw hh hb
  generalize button.bounds.width = w
  generalize button.bounds.height = h
  generalize priv.border_width = b
  intro hw hh hb e
  have ew : (w - b) / w = 1 - b / w := by field_simp
  have eh : (h - b) / h = 1 - b / h := by field_simp
  have key : min ((w - b) / w) ((h - b) / h) = 1 - b / min w h := by
    rw [ew, eh]
    rcases le_total w h with hwh | hwh
    · rw [min_eq_left hwh, min_eq_left]
      have : b / h ≤ b / w := div_le_div_of_nonneg_left hb hw hwh
      linarith
    · rw [min_eq_right hwh, min_eq_right]
      have : b / w ≤ b / h := div_le_div_of_nonneg_left hb hh hwh
      linarith
  refine ⟨e, ?_, ?_⟩
  · rw [e, key]
  · intro hb0
    rw [e, key, hb0]
    simp

/-- C13 at a 100 x 100 button with border width 20: the label scale is 4/5 = 0.8. -/
theorem label_scale_closed_form_witness :
    (0 : ℚ) < 100 ∧ (0 : ℚ) ≤ 20 ∧
    eek_renderer_render_button_label_scale
        (⟨⟨⟨0, 0, 800, 300⟩⟩, 20, 800, 300, 1, 1, 0, 0, none⟩ : EekRendererPrivate ℚ)
        (some "q") ⟨⟨0, 0, 100, 100⟩⟩ = some (4 / 5) :=
  ⟨by norm_num, by norm_num,
   (label_scale_closed_form
      (⟨⟨⟨0, 0, 800, 300⟩⟩, 20, 800, 300, 1, 1, 0, 0, none⟩ : EekRendererPrivate ℚ) "q"
      ⟨⟨0, 0, 100, 100⟩⟩ (by norm_num) (by norm_num) (by norm_num)).2.1.trans (by norm_num)⟩

end LabelFitter

/-! ## SurfaceCache -/

/-- C14: after invalidate no keyboard surface is cached and every other member of the
renderer (keyboard, border width, allocation, scale, scale factor, origin) is unchanged;
on a renderer with nothing cached invalidate changes nothing, and invalidate twice is
invalidate once. -/
theorem invalidate_drops_surface_idempotent {K : Type} (priv : EekRendererPrivate K) :
    (invalidate priv).keyboard_surface = none ∧
    (invalidate priv).keyboard = priv.keyboard ∧
    (invalidate priv).border_width = priv.border_width ∧
    (invalidate priv).allocation_width = priv.allocation_width ∧
    (invalidate priv).allocation_height = priv.allocation_height ∧
    (invalidate priv).scale = priv.scale ∧
    (invalidate priv).scale_factor = priv.scale_factor ∧
    (invalidate priv).origin_x = priv.origin_x ∧
    (invalidate priv).origin_y = priv.origin_y ∧
    (priv.keyboard_surface = none → invalidate priv = priv) ∧
    invalidate (invalidate priv) = invalidate priv := by
  refine ⟨?_, ?_, ?_, ?_, ?_, ?_, ?_, ?_, ?_, ?_, ?_⟩
  · rw [invalidate_eq]
  · rw [invalidate_eq]
  · rw [invalidate_eq]
  · rw [invalidate_eq]
  · rw [invalidate_eq]
  · rw [invalidate_eq]
  · rw [invalidate_eq]
  · rw [invalidate_eq]
  · rw [invalidate_eq]
  · intro h
    unfold invalidate
    rw [h]
    rfl
  · rw [invalidate_eq (invalidate priv), invalidate_eq priv]

/-- C14 at the sample renderer: its cached surface 0 is dropped, and a second invalidate
finds nothing cached and changes nothing. -/
theorem invalidate_drops_surface_idempotent_witness :
    sample_priv.keyboard_surface = some 0 ∧
    (invalidate sample_priv).keyboard_surface = none ∧
    invalidate (invalidate sample_priv) = invalidate sample_priv :=
  ⟨rfl, (invalidate_drops_surface_idempotent sample_priv).1,
   (invalidate_drops_surface_idempotent (invalidate sample_priv)).2.2.2.2.2.2.2.2.2.1
     (invalidate_drops_surface_idempotent sample_priv).1⟩

section SurfaceCache

variable {K : Type} [LinearOrderedField K]

/-- Whenever a trigger leaves the renderer with a valid allocation, the next
eek_renderer_render_keyboard caches a newly created surface and paints the whole view
onto it. -/
theorem render_after_trigger_of_valid_allocation [FloorRing K] (env : RenderEnv K)
    (t : InvalidationTrigger K) (view : squeek_view K)
    (changed : List (button_place K × Bool × Bool))
    (hcreated : ∀ surface, env.priv.keyboard_surface = some surface →
      surface < env.surfaces_created)
    (hw : 0 < (t.apply env.priv).allocation_width)
    (hh : 0 < (t.apply env.priv).allocation_height) :
    (eek_renderer_render_keyboard ⟨t.apply env.priv, env.surfaces_created, env.ops⟩
        view changed).priv.keyboard_surface = some env.surfaces_created ∧
    env.priv.keyboard_surface ≠ some env.surfaces_created ∧
    (t.apply env.priv).keyboard_surface ≠ some env.surfaces_created ∧
    (eek_renderer_render_keyboard ⟨t.apply env.priv, env.surfaces_created, env.ops⟩
        view changed).ops =
      env.ops ++
        (PaintOp.surface_create env.surfaces_created (t.apply env.priv).allocation_width
            (t.apply env.priv).allocation_height ::
          PaintOp.view_background env.surfaces_created (t.apply env.priv).allocation_width
            (t.apply env.priv).allocation_height ::
          (view.rows.map (fun r => r.2.map (fun b =>
            PaintOp.button_on_surface env.surfaces_created r.1 b false false))).flatten) ++
        (PaintOp.paint_surface env.surfaces_created ::
          changed.map (fun c => PaintOp.changed_button c.1 c.2.1 c.2.2)) := by
  have hold : env.priv.keyboard_surface ≠ some env.surfaces_created := by
    intro h
    exact lt_irrefl _ (hcreated _ h)
  have hnew : (t.apply env.priv).keyboard_surface ≠ some env.surfaces_created := by
    cases t with
    | allocation_size width height =>
      simp only [InvalidationTrigger.apply, eek_renderer_set_allocation_size]
      split_ifs <;> first | exact hold | (rw [invalidate_eq]; simp)
    | scale_factor scale => exact hold
    | explicit_invalidate =>
      simp only [InvalidationTrigger.apply]
      rw [invalidate_eq]
      simp
  rw [render_keyboard_eq ⟨t.apply env.priv, env.surfaces_created, env.ops⟩ view changed hw hh]
  exact ⟨rfl, hold, hnew, rfl⟩

/-- A new renderer satisfies the invariant. -/
theorem renderer_invariant_new (keyboard : LevelKeyboard K) (n : ℕ) (ops : List (PaintOp K)) :
    renderer_invariant ⟨eek_renderer_new keyboard, n, ops⟩ := by
  intro surface h
  simp [eek_renderer_new] at h

/-- Every trigger keeps the invariant. -/
theorem renderer_invariant_trigger [FloorRing K] (env : RenderEnv K)
    (t : InvalidationTrigger K) (hinv : renderer_invariant env) :
    renderer_invariant ⟨t.apply env.priv, env.surfaces_created, env.ops⟩ := by
  intro surface h
  cases t with
  | allocation_size width height =>
    simp only [InvalidationTrigger.apply, eek_renderer_set_allocation_size] at h
    split_ifs at h
    · rw [invalidate_eq] at h
      simp at h
    · have e : InvalidationTrigger.apply (InvalidationTrigger.allocation_size width height)
          env.priv = env.priv := by
        simp only [InvalidationTrigger.apply, eek_renderer_set_allocation_size]
        rw [if_pos (by assumption)]
      simp only [e]
      exact hinv surface h
  | scale_factor scale => exact hinv surface h
  | explicit_invalidate =>
    simp only [InvalidationTrigger.apply] at h
    rw [invalidate_eq] at h
    simp at h

/-- The function eek_renderer_render_keyboard keeps the invariant. -/
theorem renderer_invariant_render (env : RenderEnv K) (view : squeek_view K)
    (changed : List (button_place K × Bool × Bool)) (hinv : renderer_invariant env) :
    renderer_invariant (eek_renderer_render_keyboard env view changed) := by
  by_cases hw : 0 < env.priv.allocation_width
  · by_cases hh : 0 < env.priv.allocation_height
    · rw [render_keyboard_eq env view changed hw hh]
      intro surface h
      simp only [Option.some.injEq] at h
      subst h
      exact ⟨Nat.lt_succ_self _, hw, hh⟩
    · have e : eek_renderer_render_keyboard env view changed = env := by
        unfold eek_renderer_render_keyboard
        rw [if_neg (not_not.mpr hw), if_pos hh]
      rw [e]; exact hinv
  · have e : eek_renderer_render_keyboard env view changed = env := by
      unfold eek_renderer_render_keyboard
      rw [if_pos hw]
    rw [e]; exact hinv

/-- A valid trigger on a renderer that holds a cached surface leaves a valid
allocation. -/
theorem trigger_keeps_valid_allocation [FloorRing K] (env : RenderEnv K)
    (t : InvalidationTrigger K) (cached : ℕ) (hinv : renderer_invariant env)
    (hcached : env.priv.keyboard_surface = some cached) (hvalid : t.valid) :
    0 < (t.apply env.priv).allocation_width ∧ 0 < (t.apply env.priv).allocation_height := by
  obtain ⟨-, hw, hh⟩ := hinv cached hcached
  cases t with
  | allocation_size width height =>
    obtain ⟨h1, h2⟩ := hvalid
    simp only [InvalidationTrigger.apply]
    rw [set_allocation_size_eq env.priv width height h1 h2]
    exact ⟨h1, h2⟩
  | scale_factor scale => exact ⟨hw, hh⟩
  | explicit_invalidate =>
    simp only [InvalidationTrigger.apply]
    rw [invalidate_eq]
    exact ⟨hw, hh⟩

/-- The sample renderer satisfies the invariant. -/
theorem sample_env_invariant : renderer_invariant sample_env := by
  intro surface h
  simp only [sample_env, sample_priv, Option.some.injEq] at h
  subst h
  refine ⟨by decide, ?_, ?_⟩ <;> norm_num [sample_env, sample_priv]

/-- C15: on a renderer that holds a cached surface, after any invalidation trigger
(eek_renderer_set_allocation_size with a valid size, eek_renderer_set_scale_factor, or
invalidate) the next eek_renderer_render_keyboard does not reuse that surface: it caches
a newly created surface, different from the one cached before the trigger, and paints
onto it the view background and every button of the current view, before it copies that
surface to the widget and paints the changed buttons. -/
theorem render_after_trigger_rebuilds [FloorRing K] (env : RenderEnv K)
    (t : InvalidationTrigger K) (view : squeek_view K)
    (changed : List (button_place K × Bool × Bool)) (cached : ℕ)
    (hinv : renderer_invariant env)
    (hcached : env.priv.keyboard_surface = some cached) (hvalid : t.valid) :
    (eek_renderer_render_keyboard ⟨t.apply env.priv, env.surfaces_created, env.ops⟩
        view changed).priv.keyboard_surface = some env.surfaces_created ∧
    (eek_renderer_render_keyboard ⟨t.apply env.priv, env.surfaces_created, env.ops⟩
        view changed).priv.keyboard_surface ≠ some cached ∧
    (eek_renderer_render_keyboard ⟨t.apply env.priv, env.surfaces_created, env.ops⟩
        view changed).ops =
      env.ops ++
        (PaintOp.surface_create env.surfaces_created (t.apply env.priv).allocation_width
            (t.apply env.priv).allocation_height ::
          PaintOp.view_background env.surfaces_created (t.apply env.priv).allocation_width
            (t.apply env.priv).allocation_height ::
          (view.rows.map (fun r => r.2.map (fun b =>
            PaintOp.button_on_surface env.surfaces_created r.1 b false false))).flatten) ++
        (PaintOp.paint_surface env.surfaces_created ::
          changed.map (fun c => PaintOp.changed_button c.1 c.2.1 c.2.2)) := by
  obtain ⟨hw, hh⟩ := trigger_keeps_valid_allocation env t cached hinv hcached hvalid
  obtain ⟨h1, h2, -, h4⟩ := render_after_trigger_of_valid_allocation env t view changed
    (fun surface h => (hinv surface h).1) hw hh
  refine ⟨h1, ?_, h4⟩
  rw [h1, ← hcached]
  exact fun h => h2 h.symm

/-- C15 at the sample renderer (cached surface 0, one surface created) after invalidate:
the next eek_renderer_render_keyboard caches the new surface 1 and paints the background
and both buttons of the sample view onto it. -/
theorem render_after_trigger_rebuilds_witness :
    renderer_invariant sample_env ∧ sample_env.priv.keyboard_surface = some 0 ∧
    InvalidationTrigger.valid (InvalidationTrigger.explicit_invalidate : InvalidationTrigger ℚ) ∧
    (eek_renderer_render_keyboard
        ⟨InvalidationTrigger.explicit_invalidate.apply sample_env.priv,
         sample_env.surfaces_created, sample_env.ops⟩
        sample_view []).priv.keyboard_surface = some 1 ∧
    (eek_renderer_render_keyboard
        ⟨InvalidationTrigger.explicit_invalidate.apply sample_env.priv,
         sample_env.surfaces_created, sample_env.ops⟩
        sample_view []).ops =
      [PaintOp.surface_create 1 800 300, PaintOp.view_background 1 800 300,
       PaintOp.button_on_surface 1 ⟨⟨0, 0, 800, 100⟩, 0⟩ ⟨⟨10, 10, 60, 60⟩⟩ false false,
       PaintOp.button_on_surface 1 ⟨⟨0, 0, 800, 100⟩, 0⟩ ⟨⟨80, 10, 60, 60⟩⟩ false false,
       PaintOp.paint_surface 1] := by
  obtain ⟨h1, -, h3⟩ := render_after_trigger_rebuilds sample_env
    InvalidationTrigger.explicit_invalidate sample_view [] 0 sample_env_invariant rfl trivial
  refine ⟨sample_env_invariant, rfl, trivial, h1, ?_⟩
  rw [h3]
  simp [sample_env, sample_priv, sample_view, InvalidationTrigger.apply, invalidate_eq]

/-- C16 (the claim fails here): the sample renderer holds the cached surface 0 and has a
valid allocation, yet eek_renderer_render_keyboard does not reuse that surface: it caches
the newly created surface 1 and repaints the whole view. -/
theorem render_keyboard_does_not_reuse :
    sample_env.priv.keyboard_surface = some 0 ∧
    (eek_renderer_render_keyboard sample_env sample_view []).priv.keyboard_surface = some 1 ∧
    (eek_renderer_render_keyboard sample_env sample_view []).surfaces_created = 2 ∧
    ¬ reuses_cached_surface sample_env sample_view [] := by
  have e := render_keyboard_eq sample_env sample_view []
    (by norm_num [sample_env, sample_priv]) (by norm_num [sample_env, sample_priv])
  refine ⟨rfl, ?_, ?_, ?_⟩
  · rw [e]; rfl
  · rw [e]; rfl
  · intro h
    have h0 := (h 0 rfl).2.1
    rw [e] at h0
    simp [sample_env] at h0

/-- C16 as amended: when eek_renderer_render_keyboard is called while a keyboard surface
is cached, it does not reuse that surface: the surface it caches afterwards is a newly
created one; it paints the view background and every button of the current view onto
the new surface, copies the new surface to the widget, and after that paints only the
buttons reported as changed. -/
theorem render_keyboard_replaces_cached_surface (env : RenderEnv K) (view : squeek_view K)
    (changed : List (button_place K × Bool × Bool)) (cached : ℕ)
    (hinv : renderer_invariant env)
    (hcached : env.priv.keyboard_surface = some cached) :
    (eek_renderer_render_keyboard env view changed).priv.keyboard_surface =
      some env.surfaces_created ∧
    (eek_renderer_render_keyboard env view changed).priv.keyboard_surface ≠
      env.priv.keyboard_surface ∧
    (eek_renderer_render_keyboard env view changed).surfaces_created =
      env.surfaces_created + 1 ∧
    (eek_renderer_render_keyboard env view changed).ops =
      env.ops ++
        (PaintOp.surface_create env.surfaces_created env.priv.allocation_width
            env.priv.allocation_height ::
          PaintOp.view_background env.surfaces_created env.priv.allocation_width
            env.priv.allocation_height ::
          (view.rows.map (fun r => r.2.map (fun b =>
            PaintOp.button_on_surface env.surfaces_created r.1 b false false))).flatten) ++
        (PaintOp.paint_surface env.surfaces_created ::
          changed.map (fun c => PaintOp.changed_button c.1 c.2.1 c.2.2)) := by
  obtain ⟨hcreated, hw, hh⟩ := hinv cached hcached
  rw [render_keyboard_eq env view changed hw hh, hcached]
  refine ⟨rfl, ?_, rfl, rfl⟩
  intro h
  exact hcreated.ne' (Option.some.inj h)

/-- C16 as amended, at the sample renderer with one changed button. -/
theorem render_keyboard_replaces_cached_surface_witness :
    renderer_invariant sample_env ∧ sample_env.priv.keyboard_surface = some 0 ∧
    (eek_renderer_render_keyboard sample_env sample_view
        [(⟨⟨⟨0, 0, 800, 100⟩, 0⟩, ⟨⟨10, 10, 60, 60⟩⟩⟩, true, false)]).priv.keyboard_surface =
      some 1 ∧
    (eek_renderer_render_keyboard sample_env sample_view
        [(⟨⟨⟨0, 0, 800, 100⟩, 0⟩, ⟨⟨10, 10, 60, 60⟩⟩⟩, true, false)]).ops =
      [PaintOp.surface_create 1 800 300, PaintOp.view_background 1 800 300,
       PaintOp.button_on_surface 1 ⟨⟨0, 0, 800, 100⟩, 0⟩ ⟨⟨10, 10, 60, 60⟩⟩ false false,
       PaintOp.button_on_surface 1 ⟨⟨0, 0, 800, 100⟩, 0⟩ ⟨⟨80, 10, 60, 60⟩⟩ false false,
       PaintOp.paint_surface 1,
       PaintOp.changed_button ⟨⟨⟨0, 0, 800, 100⟩, 0⟩, ⟨⟨10, 10, 60, 60⟩⟩⟩ true false] := by
  obtain ⟨h1, -, -, h4⟩ := render_keyboard_replaces_cached_surface sample_env sample_view
    [(⟨⟨⟨0, 0, 800, 100⟩, 0⟩, ⟨⟨10, 10, 60, 60⟩⟩⟩, true, false)] 0 sample_env_invariant rfl
  refine ⟨sample_env_invariant, rfl, h1, ?_⟩
  rw [h4]
  simp [sample_env, sample_priv, sample_view]

end SurfaceCache

/-! ## The keyboard -/

section KeyboardTheorems

variable {Key : Type}

/-- C17: after eek_keyboard_set_keysym_index (keyboard, g, l) the function
eek_keyboard_get_keysym_index stores g where its group pointer points and l where its
level pointer points, each only when the pointer is not NULL, and every key of every
section of the keyboard has been passed to eek_key_set_keysym_index with (g, l). -/
theorem keysym_index_round_trip (key_set : Key → ℤ → ℤ → Key) (keyboard : EekKeyboard Key)
    (g l : ℤ) (group level : Option ℤ) :
    eek_keyboard_get_keysym_index (eek_keyboard_set_keysym_index key_set keyboard g l)
        group level = (group.map (fun _ => g), level.map (fun _ => l)) ∧
    (eek_keyboard_set_keysym_index key_set keyboard g l).children =
      keyboard.children.map (fun s => ⟨s.children.map (fun k => key_set k g l), s.connected⟩) ∧
    (eek_keyboard_set_keysym_index key_set keyboard g l).priv.group = g ∧
    (eek_keyboard_set_keysym_index key_set keyboard g l).priv.level = l := by
  refine ⟨?_, rfl, rfl, rfl⟩
  cases group <;> cases level <;>
    simp [eek_keyboard_get_keysym_index, eek_keyboard_real_get_keysym_index,
      eek_keyboard_set_keysym_index, eek_keyboard_real_set_keysym_index]

end KeyboardTheorems

/-! ## The pivot offset -/

/-- C19 (the claim fails here): for a 40 x 60 button in a row of angle 90 (sine 1) the
translation applied before the rotation is (60, 0), horizontal, where the claim has the
vertical offset (0, 60); in a row of angle -90 (sine -1) it is (0, 40), vertical, where
the claim has the horizontal offset (40, 0). -/
theorem pivot_offset_axes_are_swapped :
    button_pivot_offset (⟨Real.sin, Real.cos, Real.pi⟩ : Libm ℝ)
        ⟨⟨⟨0, 0, 800, 100⟩, 90⟩, ⟨⟨0, 0, 40, 60⟩⟩⟩ = (60, 0) ∧
    spec_pivot_offset (⟨Real.sin, Real.cos, Real.pi⟩ : Libm ℝ)
        ⟨⟨⟨0, 0, 800, 100⟩, 90⟩, ⟨⟨0, 0, 40, 60⟩⟩⟩ = (0, 60) ∧
    button_pivot_offset (⟨Real.sin, Real.cos, Real.pi⟩ : Libm ℝ)
        ⟨⟨⟨0, 0, 800, 100⟩, -90⟩, ⟨⟨0, 0, 40, 60⟩⟩⟩ = (0, 40) ∧
    spec_pivot_offset (⟨Real.sin, Real.cos, Real.pi⟩ : Libm ℝ)
        ⟨⟨⟨0, 0, 800, 100⟩, -90⟩, ⟨⟨0, 0, 40, 60⟩⟩⟩ = (40, 0) ∧
    button_pivot_offset (⟨Real.sin, Real.cos, Real.pi⟩ : Libm ℝ)
        ⟨⟨⟨0, 0, 800, 100⟩, 90⟩, ⟨⟨0, 0, 40, 60⟩⟩⟩ ≠
      spec_pivot_offset (⟨Real.sin, Real.cos, Real.pi⟩ : Libm ℝ)
        ⟨⟨⟨0, 0, 800, 100⟩, 90⟩, ⟨⟨0, 0, 40, 60⟩⟩⟩ := by
  have h1 : button_pivot_offset (⟨Real.sin, Real.cos, Real.pi⟩ : Libm ℝ)
      ⟨⟨⟨0, 0, 800, 100⟩, 90⟩, ⟨⟨0, 0, 40, 60⟩⟩⟩ = (60, 0) := by
    simp only [button_pivot_offset, radians_real_90, Real.sin_pi_div_two]
    norm_num
  have h2 : spec_pivot_offset (⟨Real.sin, Real.cos, Real.pi⟩ : Libm ℝ)
      ⟨⟨⟨0, 0, 800, 100⟩, 90⟩, ⟨⟨0, 0, 40, 60⟩⟩⟩ = (0, 60) := by
    simp only [spec_pivot_offset, radians_real_90, Real.sin_pi_div_two]
    norm_num
  refine ⟨h1, h2, ?_, ?_, ?_⟩
  · simp only [button_pivot_offset, radians_real_neg_90, Real.sin_neg, Real.sin_pi_div_two]
    norm_num
  · simp only [spec_pivot_offset, radians_real_neg_90, Real.sin_neg, Real.sin_pi_div_two]
    norm_num
  · rw [h1, h2]
    intro h
    have := congrArg Prod.fst h
    norm_num at this

/-- C19 as amended: eek_renderer_apply_transformation_for_button scales, translates by
the pivot offset and rotates by the row angle; with s the sine of the row angle, when
s < 0 the pivot offset is vertical, (0, w |s|), and when s >= 0 it is horizontal,
(h s, 0). -/
theorem pivot_offset_by_sine {K : Type} [LinearOrderedField K] (M : Libm K)
    (cr : cairo_matrix_t K) (place : button_place K) (scale : K) :
    eek_renderer_apply_transformation_for_button M cr place scale =
      cairo_rotate M
        (cairo_translate (cairo_scale cr scale scale) (button_pivot_offset M place).1
          (button_pivot_offset M place).2)
        (radians M place.row.angle) ∧
    (M.sin (radians M place.row.angle) < 0 →
      button_pivot_offset M place =
        (0, place.button.bounds.width * |M.sin (radians M place.row.angle)|)) ∧
    (0 ≤ M.sin (radians M place.row.angle) →
      button_pivot_offset M place =
        (place.button.bounds.height * M.sin (radians M place.row.angle), 0)) := by
  refine ⟨?_, ?_, ?_⟩
  · unfold eek_renderer_apply_transformation_for_button button_pivot_offset
    simp only []
    split_ifs <;> rfl
  · intro hs
    unfold button_pivot_offset
    simp only []
    rw [if_pos hs, abs_of_neg hs]
    congr 1
    ring
  · intro hs
    unfold button_pivot_offset
    simp only []
    rw [if_neg (not_lt.mpr hs)]

/-- C19 as amended, at a 40 x 60 button in a row of angle -90: the offset is (0, 40). -/
theorem pivot_offset_by_sine_witness :
    Real.sin (radians (⟨Real.sin, Real.cos, Real.pi⟩ : Libm ℝ) (-90)) < 0 ∧
    button_pivot_offset (⟨Real.sin, Real.cos, Real.pi⟩ : Libm ℝ)
        ⟨⟨⟨0, 0, 800, 100⟩, -90⟩, ⟨⟨0, 0, 40, 60⟩⟩⟩ =
      (0, 40 * |Real.sin (radians (⟨Real.sin, Real.cos, Real.pi⟩ : Libm ℝ) (-90))|) := by
  have hs : Real.sin (radians (⟨Real.sin, Real.cos, Real.pi⟩ : Libm ℝ) (-90)) < 0 := by
    rw [radians_real_neg_90, Real.sin_neg, Real.sin_pi_div_two]
    norm_num
  exact ⟨hs, (pivot_offset_by_sine (⟨Real.sin, Real.cos, Real.pi⟩ : Libm ℝ)
    cairo_matrix_identity ⟨⟨⟨0, 0, 800, 100⟩, -90⟩, ⟨⟨0, 0, 40, 60⟩⟩⟩ 1).2.1 hs⟩

/-! ## The integer result of sign, the enclosing box, and hits inside the button -/

section SignAndBox

variable {K : Type} [LinearOrderedField K]

/-- Every point of the closed rectangle of the button, rotated and translated, is a hit,
for any rotation on the unit circle, when the area w h of the button, which bounds every
cross product of the test, fits an int. -/
theorem hit_rectangle_of_unit_circle [FloorRing K] (M : Libm K) (bounds : EekBounds K)
    (origin : EekPoint K) (angle : ℤ) (x y : K)
    (hcs : M.cos (radians M angle) ^ 2 + M.sin (radians M angle) ^ 2 = 1)
    (hx0 : bounds.x ≤ x) (hx1 : x ≤ bounds.x + bounds.width)
    (hy0 : bounds.y ≤ y) (hy1 : y ≤ bounds.y + bounds.height)
    (hfit : bounds.width * bounds.height < 2147483648) :
    eek_are_bounds_inside M bounds (inside_loop_step M origin angle ⟨x, y⟩) origin angle = 1 := by
  have hw : 0 ≤ bounds.width := by linarith
  have hh : 0 ≤ bounds.height := by linarith
  have a1 : 0 ≤ bounds.width * (y - bounds.y) := mul_nonneg hw (by linarith)
  have a2 : 0 ≤ bounds.height * (bounds.x + bounds.width - x) := mul_nonneg hh (by linarith)
  have a4 : 0 ≤ bounds.width * (bounds.y + bounds.height - y) := mul_nonneg hw (by linarith)
  have a5 : 0 ≤ bounds.height * (x - bounds.x) := mul_nonneg hh (by linarith)
  have e1 : cross_product (⟨x, y⟩ : EekPoint K) ⟨bounds.x, bounds.y⟩
      ⟨bounds.x + bounds.width, bounds.y⟩ = bounds.width * (y - bounds.y) := by
    simp only [cross_product]; ring
  have e2 : cross_product (⟨x, y⟩ : EekPoint K) ⟨bounds.x + bounds.width, bounds.y⟩
      ⟨bounds.x + bounds.width, bounds.y + bounds.height⟩ =
        bounds.height * (bounds.x + bounds.width - x) := by
    simp only [cross_product]; ring
  have e3 : cross_product (⟨x, y⟩ : EekPoint K)
      ⟨bounds.x + bounds.width, bounds.y + bounds.height⟩ ⟨bounds.x, bounds.y⟩ =
        bounds.height * (x - bounds.x) - bounds.width * (y - bounds.y) := by
    simp only [cross_product]; ring
  have e4 : cross_product (⟨x, y⟩ : EekPoint K)
      ⟨bounds.x + bounds.width, bounds.y + bounds.height⟩
      ⟨bounds.x, bounds.y + bounds.height⟩ = bounds.width * (bounds.y + bounds.height - y) := by
    simp only [cross_product]; ring
  have e5 : cross_product (⟨x, y⟩ : EekPoint K) ⟨bounds.x, bounds.y + bounds.height⟩
      ⟨bounds.x, bounds.y⟩ = bounds.height * (x - bounds.x) := by
    simp only [cross_product]; ring
  have e6 : cross_product (⟨x, y⟩ : EekPoint K) ⟨bounds.x, bounds.y⟩
      ⟨bounds.x + bounds.width, bounds.y + bounds.height⟩ =
        bounds.width * (y - bounds.y) - bounds.height * (x - bounds.x) := by
    simp only [cross_product]; ring
  have s1 : bounds.width * (y - bounds.y) + bounds.width * (bounds.y + bounds.height - y) =
      bounds.width * bounds.height := by ring
  have s2 : bounds.height * (bounds.x + bounds.width - x) + bounds.height * (x - bounds.x) =
      bounds.width * bounds.height := by ring
  have h1 : ¬ (bounds.width * (y - bounds.y) ≤ -1 ∨
      2147483648 ≤ bounds.width * (y - bounds.y)) := by
    rintro (h | h) <;> linarith
  have h2 : ¬ (bounds.height * (bounds.x + bounds.width - x) ≤ -1 ∨
      2147483648 ≤ bounds.height * (bounds.x + bounds.width - x)) := by
    rintro (h | h) <;> linarith
  have h4 : ¬ (bounds.width * (bounds.y + bounds.height - y) ≤ -1 ∨
      2147483648 ≤ bounds.width * (bounds.y + bounds.height - y)) := by
    rintro (h | h) <;> linarith
  have h5 : ¬ (bounds.height * (x - bounds.x) ≤ -1 ∨
      2147483648 ≤ bounds.height * (x - bounds.x)) := by
    rintro (h | h) <;> linarith
  unfold eek_are_bounds_inside
  simp only [sign_neg_iff, cross_product_inside_loop_step M origin angle hcs]
  rw [e1, e2, e3, e4, e5, e6]
  by_cases h3 : bounds.height * (x - bounds.x) - bounds.width * (y - bounds.y) ≤ -1 ∨
      2147483648 ≤ bounds.height * (x - bounds.x) - bounds.width * (y - bounds.y)
  · have h6 : ¬ (bounds.width * (y - bounds.y) - bounds.height * (x - bounds.x) ≤ -1 ∨
        2147483648 ≤ bounds.width * (y - bounds.y) - bounds.height * (x - bounds.x)) := by
      rcases h3 with h3 | h3
      · rintro (h | h) <;> linarith
      · exfalso; linarith
    simp only [h1, h2, h3, h4, h5, h6]
    simp
  · simp only [h1, h2, h3]
    simp

/-- C21: the helper sign returns the cross product c converted to an integer by
truncation toward zero (the floor of c for c >= 0, its ceiling for c < 0), a value that
fits an int when c is within the int range; so the test `sign (...) < 0.0` holds exactly
when c <= -1, and for -1 < c < 0 the result is 0 and the test fails as it does for a
non-negative cross product. -/
theorem sign_truncates_cross_product [FloorRing K] (p1 p2 p3 : EekPoint K)
    (hlo : -2147483649 < cross_product p1 p2 p3)
    (hhi : cross_product p1 p2 p3 < 2147483648) :
    (0 ≤ cross_product p1 p2 p3 → sign p1 p2 p3 = ⌊cross_product p1 p2 p3⌋) ∧
    (cross_product p1 p2 p3 < 0 → sign p1 p2 p3 = ⌈cross_product p1 p2 p3⌉) ∧
    (-2147483648 ≤ sign p1 p2 p3 ∧ sign p1 p2 p3 ≤ 2147483647) ∧
    (sign p1 p2 p3 < 0 ↔ cross_product p1 p2 p3 ≤ -1) ∧
    (-1 < cross_product p1 p2 p3 → cross_product p1 p2 p3 < 0 →
      sign p1 p2 p3 = 0 ∧ ¬ sign p1 p2 p3 < 0) ∧
    (0 ≤ cross_product p1 p2 p3 → ¬ sign p1 p2 p3 < 0) := by
  have hs : sign p1 p2 p3 = double_to_int (cross_product p1 p2 p3) := rfl
  have hneg := sign_neg_iff p1 p2 p3
  revert hneg
  rw [hs]
  generalize cross_product p1 p2 p3 = c at hlo hhi ⊢
  intro hneg
  have e1 : 0 ≤ c → double_to_int c = ⌊c⌋ := by
    intro h; rw [double_to_int_of_in_range c hlo hhi, if_pos h]
  have e2 : c < 0 → double_to_int c = ⌈c⌉ := by
    intro h; rw [double_to_int_of_in_range c hlo hhi, if_neg (not_le.mpr h)]
  have hneg : double_to_int c < 0 ↔ c ≤ -1 := by
    rw [hneg]
    constructor
    · rintro (h | h)
      · exact h
      · exfalso; linarith
    · exact Or.inl
  refine ⟨e1, e2, ?_, hneg, ?_, ?_⟩
  · rcases le_or_lt 0 c with h | h
    · rw [e1 h]
      have h1 : (0 : ℤ) ≤ ⌊c⌋ := Int.floor_nonneg.mpr h
      have h2 : ⌊c⌋ < 2147483648 := Int.floor_lt.mpr (by exact_mod_cast hhi)
      omega
    · rw [e2 h]
      have h1 : ⌈c⌉ ≤ 0 := Int.ceil_le.mpr (by exact_mod_cast h.le)
      have h2 : -2147483649 < ⌈c⌉ := Int.lt_ceil.mpr (by exact_mod_cast hlo)
      omega
  · intro h1 h2
    have h3 : ¬ double_to_int c < 0 := by
      rw [hneg]; exact not_le.mpr h1
    refine ⟨?_, h3⟩
    rw [e2 h2] at h3 ⊢
    have h4 : ⌈c⌉ ≤ 0 := Int.ceil_le.mpr (by exact_mod_cast h2.le)
    omega
  · intro h
    rw [hneg]
    intro h'
    linarith

/-- C21 at the points (0, 1/2), (1, 0), (0, 0), whose cross product is -1/2: sign returns
0, which is not the cross product, and the test `sign (...) < 0.0` fails. -/
theorem sign_truncates_cross_product_witness :
    cross_product (⟨0, 1 / 2⟩ : EekPoint ℚ) ⟨1, 0⟩ ⟨0, 0⟩ = -1 / 2 ∧
    sign (⟨0, 1 / 2⟩ : EekPoint ℚ) ⟨1, 0⟩ ⟨0, 0⟩ = 0 ∧
    ((sign (⟨0, 1 / 2⟩ : EekPoint ℚ) ⟨1, 0⟩ ⟨0, 0⟩ : ℤ) : ℚ) ≠
      cross_product (⟨0, 1 / 2⟩ : EekPoint ℚ) ⟨1, 0⟩ ⟨0, 0⟩ ∧
    ¬ sign (⟨0, 1 / 2⟩ : EekPoint ℚ) ⟨1, 0⟩ ⟨0, 0⟩ < 0 := by
  have hc : cross_product (⟨0, 1 / 2⟩ : EekPoint ℚ) ⟨1, 0⟩ ⟨0, 0⟩ = -1 / 2 := by
    norm_num [cross_product]
  obtain ⟨-, -, -, -, h, -⟩ := sign_truncates_cross_product (⟨0, 1 / 2⟩ : EekPoint ℚ) ⟨1, 0⟩
    ⟨0, 0⟩ (by rw [hc]; norm_num) (by rw [hc]; norm_num)
  obtain ⟨h0, hn⟩ := h (by rw [hc]; norm_num) (by rw [hc]; norm_num)
  refine ⟨hc, h0, ?_, hn⟩
  rw [h0, hc]
  norm_num

/-- C22: for any view, row, row angle and button bounds, of any sign of width and height,
each of the four corners of the button, rotated by the row angle and translated by the
view origin plus the row origin, lies in the closed box that
eek_renderer_get_button_bounds returns, and the returned width and height are at least
0. -/
theorem button_bounds_encloses_corners (M : Libm K) (view_bounds : EekBounds K)
    (place : button_place K) :
    in_rect (eek_renderer_get_button_bounds M view_bounds place)
      ⟨view_bounds.x + place.row.bounds.x +
         (eek_point_rotate M ⟨place.button.bounds.x, place.button.bounds.y⟩
           place.row.angle).x,
       view_bounds.y + place.row.bounds.y +
         (eek_point_rotate M ⟨place.button.bounds.x, place.button.bounds.y⟩
           place.row.angle).y⟩ ∧
    in_rect (eek_renderer_get_button_bounds M view_bounds place)
      ⟨view_bounds.x + place.row.bounds.x +
         (eek_point_rotate M
           ⟨place.button.bounds.x + place.button.bounds.width, place.button.bounds.y⟩
           place.row.angle).x,
       view_bounds.y + place.row.bounds.y +
         (eek_point_rotate M
           ⟨place.button.bounds.x + place.button.bounds.width, place.button.bounds.y⟩
           place.row.angle).y⟩ ∧
    in_rect (eek_renderer_get_button_bounds M view_bounds place)
      ⟨view_bounds.x + place.row.bounds.x +
         (eek_point_rotate M
           ⟨place.button.bounds.x + place.button.bounds.width,
            place.button.bounds.y + place.button.bounds.height⟩ place.row.angle).x,
       view_bounds.y + place.row.bounds.y +
         (eek_point_rotate M
           ⟨place.button.bounds.x + place.button.bounds.width,
            place.button.bounds.y + place.button.bounds.height⟩ place.row.angle).y⟩ ∧
    in_rect (eek_renderer_get_button_bounds M view_bounds place)
      ⟨view_bounds.x + place.row.bounds.x +
         (eek_point_rotate M
           ⟨place.button.bounds.x, place.button.bounds.y + place.button.bounds.height⟩
           place.row.angle).x,
       view_bounds.y + place.row.bounds.y +
         (eek_point_rotate M
           ⟨place.button.bounds.x, place.button.bounds.y + place.button.bounds.height⟩
           place.row.angle).y⟩ ∧
    0 ≤ (eek_renderer_get_button_bounds M view_bounds place).width ∧
    0 ≤ (eek_renderer_get_button_bounds M view_bounds place).height := by
  rw [get_button_bounds_eq]
  simp only [in_rect, eek_point_rotate, rot_x, rot_y]
  generalize M.cos (radians M place.row.angle) = c
  generalize M.sin (radians M place.row.angle) = s
  generalize place.button.bounds.width = w
  generalize place.button.bounds.height = h
  generalize place.button.bounds.x = bx
  generalize place.button.bounds.y = y
  obtain ⟨a1, a2, a3, a4, -⟩ := le_max5 (bx * c - (y + h) * s) ((bx + w) * c - (y + h) * s)
    ((bx + w) * c - y * s) (bx * c - y * s) bx
  obtain ⟨b1, b2, b3, b4, -⟩ := min5_le (bx * c - (y + h) * s) ((bx + w) * c - (y + h) * s)
    ((bx + w) * c - y * s) (bx * c - y * s) (bx + w)
  obtain ⟨c1, c2, c3, c4, -⟩ := le_max5 (bx * s + (y + h) * c) ((bx + w) * s + (y + h) * c)
    ((bx + w) * s + y * c) (bx * s + y * c) y
  obtain ⟨d1, d2, d3, d4, -⟩ := min5_le (bx * s + (y + h) * c) ((bx + w) * s + (y + h) * c)
    ((bx + w) * s + y * c) (bx * s + y * c) (y + h)
  refine ⟨⟨?_, ?_, ?_, ?_⟩, ⟨?_, ?_, ?_, ?_⟩, ⟨?_, ?_, ?_, ?_⟩, ⟨?_, ?_, ?_, ?_⟩, ?_, ?_⟩ <;>
    linarith

end SignAndBox

/-- C23 (the code departs from the claim at this input): for the bounds
{0, 0, 100000, 100000}, origin (0, 0) and angle 0 the point (25000, 25000) lies in the
rectangle of the button, on its diagonal, and eek_are_bounds_inside returns 0 for it.
The cross products of the point with the edges, 2500000000 and 7500000000, are too large
for the int that sign returns, so the converted values are negative, while the cross
product with the diagonal is 0: in both triangles the three tests disagree. -/
theorem hit_test_misses_point_of_large_button :
    (0 : ℝ) ≤ 25000 ∧ (25000 : ℝ) ≤ 0 + 100000 ∧
    eek_point_rotate (⟨Real.sin, Real.cos, Real.pi⟩ : Libm ℝ) ⟨25000, 25000⟩ 0 =
      ⟨25000, 25000⟩ ∧
    cross_product (⟨25000, 25000⟩ : EekPoint ℝ) ⟨0, 0⟩ ⟨0 + 100000, 0⟩ = 2500000000 ∧
    sign (⟨25000, 25000⟩ : EekPoint ℝ) ⟨0, 0⟩ ⟨0 + 100000, 0⟩ = -2147483648 ∧
    eek_are_bounds_inside (⟨Real.sin, Real.cos, Real.pi⟩ : Libm ℝ) ⟨0, 0, 100000, 100000⟩
      ⟨(eek_point_rotate (⟨Real.sin, Real.cos, Real.pi⟩ : Libm ℝ) ⟨25000, 25000⟩ 0).x + 0,
       (eek_point_rotate (⟨Real.sin, Real.cos, Real.pi⟩ : Libm ℝ) ⟨25000, 25000⟩ 0).y + 0⟩
      ⟨0, 0⟩ 0 = 0 := by
  refine ⟨by norm_num, by norm_num, ?_, ?_, ?_, ?_⟩
  · simp only [eek_point_rotate, radians_real_0, Real.cos_zero, Real.sin_zero]
    norm_num
  · simp only [cross_product]
    norm_num
  · simp only [sign, double_to_int]
    norm_num
  · simp only [eek_are_bounds_inside, inside_loop_step, eek_point_rotate, radians_real_0,
      Real.cos_zero, Real.sin_zero, sign_neg_iff, cross_product]
    norm_num

end Squeekboard
